import Mathlib

/-!
# Hyundai Coupe website controller (`js/script.js`)

A shallow embedding of the `HyundaiCoupeWebsite` class: the preference storage,
the controller fields, the part of the document the theme and language methods
read and write, and the specification search.

Methods that can throw return `Except JsError _`; a method that cannot throw
is a plain function. The HTML parser of the browser, which `applyLanguage`
reaches through `innerHTML`, is a parameter `parse` of the methods that lead
to it.
-/

namespace HyundaiCoupeWebsite

/-! ## Exceptions and browser storage -/

/-- The exceptions the modelled code can meet. -/
inductive JsError where
  /-- `SecurityError`: the page is not allowed to touch `localStorage`. -/
  | securityError
  /-- `TypeError`: a property of `null` was read. -/
  | typeError
  /-- `SyntaxError`: `new RegExp` was given an invalid pattern. -/
  | syntaxError
  deriving DecidableEq, Repr

deriving instance DecidableEq for Except

/-- The browser's `localStorage`: either every access throws (storage disabled
or blocked for the page), or it holds a list of key/value entries. -/
inductive Storage where
  | denied
  | available (entries : List (String × String))
  deriving DecidableEq, Repr

/-- First value stored under `key`, the `null` of `getItem` being `none`. -/
def lookup (key : String) : List (String × String) → Option String
  | [] => none
  | (k, v) :: rest => if k = key then some v else lookup key rest

/-- Overwrite the entry of `key`, or append a new entry when there is none. -/
def store (key value : String) : List (String × String) → List (String × String)
  | [] => [(key, value)]
  | (k, v) :: rest => if k = key then (k, value) :: rest else (k, v) :: store key value rest

/-- `localStorage.getItem(key)`. -/
def Storage.getItem (s : Storage) (key : String) : Except JsError (Option String) :=
  match s with
  | .denied => .error .securityError
  | .available entries => .ok (lookup key entries)

/-- `localStorage.setItem(key, value)`. -/
def Storage.setItem (s : Storage) (key value : String) : Except JsError Storage :=
  match s with
  | .denied => .error .securityError
  | .available entries => .ok (.available (store key value entries))

/-- JavaScript `value || fallback` for a value that is `null` or a string:
`null` and the empty string are falsy. -/
def orElse (value : Option String) (fallback : String) : String :=
  match value with
  | none => fallback
  | some v => if v = "" then fallback else v

/-- `getStoredTheme()`: `localStorage.getItem("hyundai-coupe-theme") || "light"`. -/
def getStoredTheme (s : Storage) : Except JsError String :=
  match s.getItem "hyundai-coupe-theme" with
  | .error e => .error e
  | .ok v => .ok (orElse v "light")

/-- `setStoredTheme(theme)`. -/
def setStoredTheme (s : Storage) (theme : String) : Except JsError Storage :=
  s.setItem "hyundai-coupe-theme" theme

/-- `getStoredLanguage()`: `localStorage.getItem("hyundai-coupe-language") || "en"`. -/
def getStoredLanguage (s : Storage) : Except JsError String :=
  match s.getItem "hyundai-coupe-language" with
  | .error e => .error e
  | .ok v => .ok (orElse v "en")

/-- `setStoredLanguage(language)`. -/
def setStoredLanguage (s : Storage) (language : String) : Except JsError Storage :=
  s.setItem "hyundai-coupe-language" language

/-! ## The document -/

/-- A list of sibling nodes, each a text node or an element with its tag name
(lower case, as `localName` has it), its content attributes, and its own list
of child nodes. -/
inductive Dom where
  | nil
  | text (data : String) (next : Dom)
  | elem (tagName : String) (attributes : List (String × String)) (children : Dom) (next : Dom)
  deriving DecidableEq, Repr

/-- An element of the document: its local name, its content attributes, and
its child nodes. -/
structure Element where
  localName : String
  attributes : List (String × String)
  children : Dom
  deriving DecidableEq, Repr

/-- `element.tagName` of an HTML element: the local name in ASCII upper case. -/
def Element.tagName (e : Element) : String := String.mk (e.localName.toList.map Char.toUpper)

/-- The nodes of a sibling list with the nodes of `more` after them. -/
def Dom.append : Dom → Dom → Dom
  | .nil, more => more
  | .text data next, more => .text data (next.append more)
  | .elem tag attributes children next, more => .elem tag attributes children (next.append more)

/-- The nodes of `d`, `count` times over. -/
def Dom.replicate : Nat → Dom → Dom
  | 0, _ => .nil
  | count + 1, d => d.append (Dom.replicate count d)

/-- The element at place `index` among the elements of a sibling list (text
nodes are not counted). -/
def Dom.child? : Dom → Nat → Option Element
  | .nil, _ => none
  | .text _ next, index => next.child? index
  | .elem tag attributes children _, 0 =>
    some { localName := tag, attributes := attributes, children := children }
  | .elem _ _ _ next, index + 1 => next.child? index

/-- The element a path leads to from an element: the empty path leads to the
element itself, the path `i :: rest` leads where `rest` leads from its child
element at place `i`. -/
def Element.descendant? (e : Element) : List Nat → Option Element
  | [] => some e
  | index :: rest =>
    match e.children.child? index with
    | some child => child.descendant? rest
    | none => none

/-- The element a path leads to from a list of sibling nodes. -/
def Dom.elementAt? (d : Dom) : List Nat → Option Element
  | [] => none
  | index :: rest =>
    match d.child? index with
    | some child => child.descendant? rest
    | none => none

/-- The data of the text nodes of a sibling list, in order; text inside the
elements of the list is not included. -/
def Dom.ownText : Dom → List String
  | .nil => []
  | .text data next => data :: next.ownText
  | .elem _ _ _ next => next.ownText

/-- ASCII lower-casing, which `getAttribute` applies to the name it is given. -/
def asciiLower (s : String) : String := String.mk (s.toList.map Char.toLower)

/-- `element.getAttribute(name)`. -/
def Element.getAttribute (e : Element) (name : String) : Option String :=
  lookup (asciiLower name) e.attributes

/-- `element.setAttribute(name, value)` for a lower-case `name`. -/
def Element.setAttribute (e : Element) (name value : String) : Element :=
  { e with attributes := store name value e.attributes }

/-- The selector `[data-en][data-ar]`. -/
def Element.isTranslatable (e : Element) : Bool :=
  (lookup "data-en" e.attributes).isSome && (lookup "data-ar" e.attributes).isSome

/-- The `placeholder` property, which reflects the content attribute. -/
def Element.placeholder (e : Element) : Option String := lookup "placeholder" e.attributes

/-- The part of the document the theme and language methods work on. An
optional field is `none` when the element it belongs to is not in the page. -/
structure Page where
  /-- `data-theme` of the root element. -/
  dataTheme : Option String
  /-- `lang` of the root element. -/
  lang : Option String
  /-- `dir` of the root element. -/
  dir : Option String
  /-- `className` of `#darkModeToggle i`. -/
  themeIcon : Option String
  /-- `textContent` of `#langToggle span`. -/
  langToggleSpan : Option String
  /-- `document.title`. -/
  title : String
  /-- `content` of `meta[name="description"]`. -/
  metaDescription : Option String
  /-- The elements that carry text, with all that lies inside them, in document
  order: a list of sibling trees, none inside another. -/
  body : Dom
  /-- Whether `#imageModal` exists. -/
  imageModal : Bool
  /-- Whether `.navbar-controls` exists. -/
  navbarControls : Bool
  /-- Number of `.generation-section` elements holding a `.details-container`. -/
  detailsContainers : Nat
  /-- Number of the sections `rd1`, `rd2`, `gk1`, `gk2` that exist and hold a
  `.specs-section`. -/
  specsSections : Nat
  deriving DecidableEq, Repr

/-- The controller together with the storage and the page it acts on. -/
structure World where
  currentLanguage : String
  currentTheme : String
  storage : Storage
  page : Page
  deriving DecidableEq, Repr

/-! ## Theme management -/

/-- `updateThemeIcon()`. -/
def updateThemeIcon (w : World) : World :=
  match w.page.themeIcon with
  | none => w
  | some _ =>
    { w with page := { w.page with
        themeIcon := some (if w.currentTheme = "light" then "bi bi-moon-fill" else "bi bi-sun-fill") } }

/-- `initializeTheme()`. -/
def initializeTheme (w : World) : World :=
  updateThemeIcon { w with page := { w.page with dataTheme := some w.currentTheme } }

/-- `toggleTheme()`. -/
def toggleTheme (w : World) : Except JsError World :=
  let w1 := { w with currentTheme := if w.currentTheme = "light" then "dark" else "light" }
  match setStoredTheme w1.storage w1.currentTheme with
  | .error e => .error e
  | .ok storage =>
    let w2 := { w1 with storage := storage }
    .ok (updateThemeIcon { w2 with page := { w2.page with dataTheme := some w2.currentTheme } })

/-! ## Language management -/

/-- The body of the `forEach` over `[data-en][data-ar]` in `applyLanguage`,
applied to one element (an element the selector does not match is not
visited). `parse` is the HTML parser of the browser: `parse name markup` are
the child nodes it makes of `markup` when that is assigned to `innerHTML` of
an element with the local name `name`. -/
def translateElement (parse : String → String → Dom) (language : String) (e : Element) :
    Element :=
  if e.isTranslatable then
    match e.getAttribute ("data-" ++ language) with
    | none => e
    | some translation =>
      if translation = "" then e
      else if e.tagName = "INPUT" ∨ e.tagName = "TEXTAREA" then
        e.setAttribute "placeholder" translation
      else { e with children := parse e.localName translation }
  else e

/-- Whether the body of the `forEach` assigns `innerHTML` of the element. -/
def Element.isAssigned (language : String) (e : Element) : Bool :=
  e.isTranslatable &&
    match e.getAttribute ("data-" ++ language) with
    | none => false
    | some translation =>
      translation != "" && !(decide (e.tagName = "INPUT") || decide (e.tagName = "TEXTAREA"))

/-- The `forEach` of `applyLanguage` on a list of sibling nodes and all that
lies inside them. `querySelectorAll` returns a static list in document order,
in which an element comes before the elements inside it: once its `innerHTML`
is assigned, the elements that were inside it have left the document when
their turn comes, and the nodes the parser made are not in the list. The
child nodes of every other element are visited in turn. -/
def Dom.translate (parse : String → String → Dom) (language : String) : Dom → Dom
  | .nil => .nil
  | .text data next => .text data (next.translate parse language)
  | .elem tag attributes children next =>
    .elem tag
      (translateElement parse language
        { localName := tag, attributes := attributes, children := children }).attributes
      (if Element.isAssigned language
          { localName := tag, attributes := attributes, children := children } then
        (translateElement parse language
          { localName := tag, attributes := attributes, children := children }).children
       else children.translate parse language)
      (next.translate parse language)

/-- An element of the document after the call, with all that lies inside it. -/
def Element.translate (parse : String → String → Dom) (language : String) (e : Element) :
    Element :=
  { localName := e.localName
    attributes := (translateElement parse language e).attributes
    children :=
      if e.isAssigned language then (translateElement parse language e).children
      else e.children.translate parse language }

/-- Whether the call assigns `innerHTML` of an element the path passes on its
way from `e`, `e` included and the end of the path not: the element at the end
of such a path has left the document after the call. -/
def Element.assignedAbove (language : String) (e : Element) : List Nat → Bool
  | [] => false
  | index :: rest =>
    e.isAssigned language ||
      match e.children.child? index with
      | some child => child.assignedAbove language rest
      | none => false

/-- Whether the call assigns `innerHTML` of an element the path passes before
its end, for a path from a list of sibling nodes. -/
def Dom.assignedAbove (language : String) (d : Dom) : List Nat → Bool
  | [] => false
  | index :: rest =>
    match d.child? index with
    | some child => child.assignedAbove language rest
    | none => false

/-- `applyLanguage(language)`. -/
def applyLanguage (parse : String → String → Dom) (language : String) (p : Page) : Page :=
  { p with
    lang := some language
    dir := some (if language = "ar" then "rtl" else "ltr")
    langToggleSpan := p.langToggleSpan.map (fun _ => if language = "en" then "العربية" else "English")
    body := p.body.translate parse language
    title :=
      if language = "en" then "Hyundai Coupe (Tiburon) - Complete Guide - RD & GK Generations"
      else "هيونداي كوبيه (تيبورون) - دليل شامل - أجيال RD و GK"
    metaDescription := p.metaDescription.map (fun _ =>
      if language = "en" then
        "Comprehensive guide to the Hyundai Coupe (Tiburon) - RD1, RD2, GK1, GK2 generations with technical specifications, history, and gallery"
      else "دليل شامل لهيونداي كوبيه (تيبورون) - أجيال RD1, RD2, GK1, GK2 مع المواصفات التقنية والتاريخ والمعرض") }

/-- `initializeLanguage()`. -/
def initializeLanguage (parse : String → String → Dom) (w : World) : World :=
  { w with page := applyLanguage parse w.currentLanguage w.page }

/-- `toggleLanguage()`. -/
def toggleLanguage (parse : String → String → Dom) (w : World) : Except JsError World :=
  let w1 := { w with currentLanguage := if w.currentLanguage = "en" then "ar" else "en" }
  match setStoredLanguage w1.storage w1.currentLanguage with
  | .error e => .error e
  | .ok storage =>
    let w2 := { w1 with storage := storage }
    .ok { w2 with page := applyLanguage parse w2.currentLanguage w2.page }

/-- The theme `toggleTheme` switches to. -/
def otherTheme (theme : String) : String := if theme = "light" then "dark" else "light"

/-- The language `toggleLanguage` switches to. -/
def otherLanguage (language : String) : String := if language = "en" then "ar" else "en"

/-- `toggleTheme()` called twice in succession. -/
def toggleThemeTwice (w : World) : Except JsError World :=
  match toggleTheme w with
  | .error e => .error e
  | .ok w1 => toggleTheme w1

/-! ## Construction -/

/-- The label `initializePrintStyles()` puts in the print button. -/
def printLabel : Dom :=
  .elem "span" [("data-en", "Print"), ("data-ar", "طباعة")] (.text "Print" .nil) .nil

/-- The label `addGenerationComparison()` puts in each compare button. -/
def compareLabel : Dom :=
  .elem "span" [("data-en", "Compare"), ("data-ar", "قارن")] (.text "Compare" .nil) .nil

/-- The heading and the three bar labels of `generatePerformanceChart(data)`. -/
def chartLabels : Dom :=
  .elem "h5" [("data-en", "Performance Overview"), ("data-ar", "نظرة عامة على الأداء")]
    (.text "Performance Overview" .nil)
    (.elem "label" [("data-en", "Horsepower"), ("data-ar", "القوة الحصانية")]
      (.text "Horsepower" .nil)
      (.elem "label" [("data-en", "Torque"), ("data-ar", "عزم الدوران")] (.text "Torque" .nil)
        (.elem "label" [("data-en", "0-100 km/h"), ("data-ar", "0-100 كم/س")]
          (.text "0-100 km/h" .nil) .nil)))

/-- `initializeImageModal()` as far as it runs during construction: the click
handlers are only registered, and `modal.addEventListener` dereferences the
modal. -/
def initializeImageModal (p : Page) : Except JsError Unit :=
  if p.imageModal then .ok () else .error .typeError

/-- `start()`, as far as it touches the modelled state: of its steps,
`initializePrintStyles`, `addGenerationComparison` and `addPerformanceCharts`
insert new text-carrying elements (listed here after the existing ones); the
others register listeners, log, or add elements without text attributes. -/
def start (w : World) : World :=
  { w with page := { w.page with
      body := ((w.page.body.append (if w.page.navbarControls then printLabel else .nil)).append
        (Dom.replicate w.page.detailsContainers compareLabel)).append
        (Dom.replicate w.page.specsSections chartLabels) } }

/-- `init()`. Between `initializeLanguage` and `initializeImageModal`, and
after it, `bindEvents`, `initializeCarousels`, `initializeLazyLoading`,
`initializeVideoPlaylist`, `initializeSmoothScrolling` and
`addFadeInAnimations` register listeners and observers only (the carousel
library is taken to be loaded). -/
def init (parse : String → String → Dom) (w : World) : Except JsError World :=
  let w1 := initializeTheme w
  let w2 := initializeLanguage parse w1
  match initializeImageModal w2.page with
  | .error e => .error e
  | .ok _ => .ok (start w2)

/-- `new HyundaiCoupeWebsite()` on a page with the given storage. -/
def constructor (parse : String → String → Dom) (storage : Storage) (page : Page) :
    Except JsError World :=
  match getStoredLanguage storage with
  | .error e => .error e
  | .ok language =>
    match getStoredTheme storage with
    | .error e => .error e
    | .ok theme =>
      init parse
        { currentLanguage := language, currentTheme := theme, storage := storage, page := page }

/-! ## Strings -/

/-- The characters `String.prototype.trim` strips: white space and line
terminators. -/
def isTrimmable (c : Char) : Bool :=
  c.val = 0x09 || c.val = 0x0A || c.val = 0x0B || c.val = 0x0C || c.val = 0x0D ||
  c.val = 0x20 || c.val = 0xA0 || c.val = 0x1680 || (0x2000 ≤ c.val && c.val ≤ 0x200A) ||
  c.val = 0x2028 || c.val = 0x2029 || c.val = 0x202F || c.val = 0x205F || c.val = 0x3000 ||
  c.val = 0xFEFF

/-- `String.prototype.trim`. -/
def trim (s : String) : String :=
  String.mk ((s.toList.dropWhile isTrimmable).reverse.dropWhile isTrimmable).reverse

/-- `String.prototype.toLowerCase`, modelled on the ASCII letters: every other
character is left as it is. -/
def toLowerCase (s : String) : String := String.mk (s.toList.map Char.toLower)

/-- Whether `needle` occurs in `hay` as a contiguous run. -/
def occursIn (needle : List Char) : List Char → Bool
  | [] => needle.isEmpty
  | c :: rest => needle.isPrefixOf (c :: rest) || occursIn needle rest

/-- `String.prototype.includes`. -/
def includes (text term : String) : Bool := occursIn term.toList text.toList

/-! ## Nodes -/

/-- ASCII white space, which separates the tokens of a `class` attribute. -/
def isAsciiWhitespace (c : Char) : Bool :=
  c = ' ' || c = '\t' || c = '\n' || c.val = 0x0C || c = '\r'

/-- Split on ASCII white space; `current` is the token being read. -/
def splitTokens (current : List Char) : List Char → List (List Char)
  | [] => if current.isEmpty then [] else [current]
  | c :: rest =>
    if isAsciiWhitespace c then
      if current.isEmpty then splitTokens [] rest else current :: splitTokens [] rest
    else splitTokens (current ++ [c]) rest

/-- The tokens in order, each kept where it first occurs. -/
def dedupTokens : List (List Char) → List (List Char)
  | [] => []
  | t :: rest => t :: (dedupTokens rest).filter (fun u => u != t)

/-- The tokens joined by single spaces. -/
def joinTokens : List (List Char) → List Char
  | [] => []
  | [t] => t
  | t :: u :: rest => t ++ ' ' :: joinTokens (u :: rest)

/-- `element.classList`: the tokens of the `class` attribute, each once. -/
def classTokens (attributes : List (String × String)) : List (List Char) :=
  match lookup "class" attributes with
  | none => []
  | some value => dedupTokens (splitTokens [] value.toList)

/-- Whether the element matches the class selector `.name`. -/
def hasClass (name : String) (attributes : List (String × String)) : Bool :=
  (classTokens attributes).contains name.toList

/-- `element.classList.remove(name)`: the `class` attribute becomes the
remaining tokens joined by single spaces. -/
def removeClass (name : String) (attributes : List (String × String)) : List (String × String) :=
  store "class"
    (String.mk (joinTokens ((classTokens attributes).filter (fun t => t != name.toList))))
    attributes

/-- A token of a `class` attribute: not empty, free of white space. -/
def IsToken (t : List Char) : Prop := t ≠ [] ∧ ∀ c ∈ t, isAsciiWhitespace c = false

/-- `node.textContent` of the nodes of a sibling list, concatenated. -/
def Dom.textContent : Dom → String
  | .nil => ""
  | .text data next => data ++ next.textContent
  | .elem _ _ children next => children.textContent ++ next.textContent

/-- `parent.normalize()` on the child list of `parent`: empty text nodes are
removed and adjacent text nodes merged, in the whole subtree. -/
def Dom.normalize : Dom → Dom
  | .nil => .nil
  | .text data next =>
    if data = "" then next.normalize
    else
      match next.normalize with
      | .text more rest => .text (data ++ more) rest
      | other => .text data other
  | .elem tag attributes children next => .elem tag attributes children.normalize next.normalize

/-- First loop of `clearSearchHighlights()` on one list of siblings. The static
list of `.search-highlight` elements is visited in document order, so an
element of the list that lies inside another has left the document when its
turn comes: in the document, every outermost `.search-highlight` element is
replaced by a text node holding its text content, and each parent of a
replaced element has its subtree normalised. The flag tells the parent of
these siblings whether one of them was replaced. -/
def Dom.replaceHighlights : Dom → Dom × Bool
  | .nil => (.nil, false)
  | .text data next => (.text data next.replaceHighlights.1, next.replaceHighlights.2)
  | .elem tag attributes children next =>
    if hasClass "search-highlight" attributes then
      (.text children.textContent next.replaceHighlights.1, true)
    else
      (.elem tag attributes
        (if children.replaceHighlights.2 then children.replaceHighlights.1.normalize
         else children.replaceHighlights.1)
        next.replaceHighlights.1,
       next.replaceHighlights.2)

/-- Second loop of `clearSearchHighlights()` below one parent: the class
`search-result` is removed from every element that carries it. -/
def Dom.unmarkResults : Dom → Dom
  | .nil => .nil
  | .text data next => .text data next.unmarkResults
  | .elem tag attributes children next =>
    .elem tag
      (if hasClass "search-result" attributes then removeClass "search-result" attributes
       else attributes)
      children.unmarkResults next.unmarkResults

/-- Number of elements matching `.name` among the nodes and their descendants. -/
def Dom.countClass (name : String) : Dom → Nat
  | .nil => 0
  | .text _ next => next.countClass name
  | .elem _ attributes children next =>
    (if hasClass name attributes then 1 else 0) + children.countClass name + next.countClass name

/-- An `li` below `.spec-item`: whether it carries the class `search-result`,
and its child nodes. The `li` itself is taken not to carry `search-highlight`,
which the code puts on `mark` elements only. -/
structure SpecItem where
  searchResult : Bool
  children : Dom
  deriving DecidableEq, Repr

/-- The part of the page the search works on: the items
`document.querySelectorAll(".spec-item li")` returns, in document order (none
inside another), and the lines written to the console. Search highlights and
result marks exist inside these items only. -/
structure SearchPage where
  items : List SpecItem
  console : List String
  deriving DecidableEq, Repr

/-- `clearSearchHighlights()` on one item. -/
def SpecItem.clear (item : SpecItem) : SpecItem :=
  { searchResult := false
    children :=
      (if item.children.replaceHighlights.2 then item.children.replaceHighlights.1.normalize
       else item.children.replaceHighlights.1).unmarkResults }

/-- `clearSearchHighlights()`. -/
def clearSearchHighlights (s : SearchPage) : SearchPage :=
  { s with items := s.items.map SpecItem.clear }

/-- Number of `.search-highlight` elements in the page. -/
def SearchPage.highlighted (s : SearchPage) : Nat :=
  (s.items.map (fun item => item.children.countClass "search-highlight")).sum

/-- Number of `.search-result` elements in the page: the marked items and the
elements inside items that carry the class. -/
def SearchPage.results (s : SearchPage) : Nat :=
  (s.items.map (fun item =>
    (if item.searchResult then 1 else 0) + item.children.countClass "search-result")).sum

/-! ## Regular expressions -/

/-- Why a run of the search stops early: the code throws, or the run needs a
part of the pattern language or of HTML parsing that this model does not
cover. `outsideModel` is no behaviour of the code; nothing is stated about a
run that ends in it. -/
inductive Halt where
  | throws (error : JsError)
  | outsideModel
  deriving DecidableEq, Repr

/-- Patterns of the modelled fragment of the pattern language: characters,
`.`, `^`, `$`, `|`, capturing groups, and the quantifiers `*`, `+`, `?` in their
greedy and lazy forms. -/
inductive Re where
  | empty
  | char (c : Char)
  | any
  | inputStart
  | inputEnd
  | seq (r s : Re)
  | alt (r s : Re)
  | star (greedy : Bool) (r : Re)
  | plus (greedy : Bool) (r : Re)
  | opt (greedy : Bool) (r : Re)
  | group (index : Nat) (r : Re)
  deriving DecidableEq, Repr

/-- The alternative made of the given terms, in order. -/
def Re.ofTerms : List Re → Re
  | [] => .empty
  | [r] => r
  | r :: rest => .seq r (Re.ofTerms rest)

/-- The disjunction of the given alternatives, in order. -/
def Re.ofAlternatives : List Re → Re
  | [] => .empty
  | [r] => r
  | r :: rest => .alt r (Re.ofAlternatives rest)

/-- What a quantifier character may still do to the last term read. -/
inductive LastTerm where
  | absent
  | atom
  | quantified
  deriving DecidableEq, Repr

/-- A group being read (index 0 is the whole pattern): the alternatives
finished so far and the terms of the current one, both latest first. -/
structure Frame where
  index : Nat
  alternatives : List Re
  terms : List Re
  last : LastTerm
  deriving DecidableEq, Repr

/-- The pattern a finished frame stands for. -/
def Frame.close (f : Frame) : Re :=
  Re.ofAlternatives ((Re.ofTerms f.terms.reverse :: f.alternatives).reverse)

/-- Add an atom to the frame. -/
def Frame.push (f : Frame) (r : Re) : Frame :=
  { f with terms := r :: f.terms, last := .atom }

/-- Make the quantifier just read lazy. -/
def Re.lazy : Re → Re
  | .star _ r => .star false r
  | .plus _ r => .plus false r
  | .opt _ r => .opt false r
  | r => r

/-- Read the pattern left to right. `groups` counts the `(` seen, `top` is the
innermost open group and `outer` the groups around it. The first character
outside the modelled fragment (`\`, `[`, `{`, or `?` right after `(`) ends the
reading with `outsideModel`; an error found before that is a `SyntaxError`
whatever follows. -/
def parsePattern (groups : Nat) (top : Frame) (outer : List Frame) :
    List Char → Except Halt Re
  | [] =>
    match outer with
    | [] => .ok top.close
    | _ :: _ => .error (.throws .syntaxError)
  | c :: rest =>
    if c = '\\' ∨ c = '[' ∨ c = '{' then .error .outsideModel
    else if c = '(' then
      match rest with
      | '?' :: _ => .error .outsideModel
      | _ =>
        parsePattern (groups + 1)
          { index := groups + 1, alternatives := [], terms := [], last := .absent }
          (top :: outer) rest
    else if c = ')' then
      match outer with
      | [] => .error (.throws .syntaxError)
      | parent :: outer' =>
        parsePattern groups (parent.push (.group top.index top.close)) outer' rest
    else if c = '|' then
      parsePattern groups
        { top with alternatives := Re.ofTerms top.terms.reverse :: top.alternatives,
                   terms := [], last := .absent }
        outer rest
    else if c = '*' ∨ c = '+' ∨ c = '?' then
      match top.last, top.terms with
      | .atom, r :: terms =>
        parsePattern groups
          { top with
            terms := (if c = '*' then Re.star true r else if c = '+' then Re.plus true r
                      else Re.opt true r) :: terms,
            last := .quantified }
          outer rest
      | .quantified, r :: terms =>
        if c = '?' then
          parsePattern groups { top with terms := r.lazy :: terms, last := .absent } outer rest
        else .error (.throws .syntaxError)
      | _, _ => .error (.throws .syntaxError)
    else if c = '^' then
      parsePattern groups { top with terms := .inputStart :: top.terms, last := .absent } outer rest
    else if c = '$' then
      parsePattern groups { top with terms := .inputEnd :: top.terms, last := .absent } outer rest
    else if c = '.' then parsePattern groups (top.push .any) outer rest
    else parsePattern groups (top.push (.char c)) outer rest

/-- `new RegExp(source, "gi")`. -/
def RegExp.compile (source : String) : Except Halt Re :=
  parsePattern 0 { index := 0, alternatives := [], terms := [], last := .absent } [] source.toList

/-- A point of a match attempt: whether it is the start of the input, the
input still ahead, and what group 1 has captured. -/
structure MatchState where
  atStart : Bool
  rest : List Char
  capture : Option (List Char)
  deriving DecidableEq, Repr

/-- Whether group 1 lies inside the pattern. -/
def Re.hasFirstGroup : Re → Bool
  | .seq r s => r.hasFirstGroup || s.hasFirstGroup
  | .alt r s => r.hasFirstGroup || s.hasFirstGroup
  | .star _ r => r.hasFirstGroup
  | .plus _ r => r.hasFirstGroup
  | .opt _ r => r.hasFirstGroup
  | .group index r => index == 1 || r.hasFirstGroup
  | _ => false

/-- The line terminators, which `.` does not match. -/
def isLineTerminator (c : Char) : Bool :=
  c = '\n' || c = '\r' || c.val = 0x2028 || c.val = 0x2029

/-- Repetition of `step`: the ways to run it zero or more times from `st`, each
run consuming input, in the order the matcher tries them. -/
def repeatMatches (step : MatchState → List MatchState) (greedy : Bool) :
    Nat → MatchState → List MatchState
  | 0, st => [st]
  | fuel + 1, st =>
    let more := ((step st).filter (fun st' => st'.rest.length < st.rest.length)).flatMap
      (repeatMatches step greedy fuel)
    if greedy then more ++ [st] else st :: more

/-- All the ways the pattern matches at `st`, in the order a backtracking
matcher tries them: the head is the match `exec` reports. Under the `i` flag
characters are compared up to ASCII case. -/
def Re.matchesFrom : Re → MatchState → List MatchState
  | .empty, st => [st]
  | .char c, st =>
    match st.rest with
    | d :: rest => if c.toLower = d.toLower then [{ st with atStart := false, rest := rest }] else []
    | [] => []
  | .any, st =>
    match st.rest with
    | d :: rest => if isLineTerminator d then [] else [{ st with atStart := false, rest := rest }]
    | [] => []
  | .inputStart, st => if st.atStart then [st] else []
  | .inputEnd, st => if st.rest.isEmpty then [st] else []
  | .seq r s, st => (r.matchesFrom st).flatMap (fun st' => s.matchesFrom st')
  | .alt r s, st => r.matchesFrom st ++ s.matchesFrom st
  | .star greedy r, st =>
    repeatMatches
      (fun st' => r.matchesFrom (if r.hasFirstGroup then { st' with capture := none } else st'))
      greedy st.rest.length st
  | .plus greedy r, st =>
    (r.matchesFrom (if r.hasFirstGroup then { st with capture := none } else st)).flatMap
      (fun st1 => repeatMatches
        (fun st' => r.matchesFrom (if r.hasFirstGroup then { st' with capture := none } else st'))
        greedy st1.rest.length st1)
  | .opt greedy r, st =>
    repeatMatches
      (fun st' => r.matchesFrom (if r.hasFirstGroup then { st' with capture := none } else st'))
      greedy 1 st
  | .group index r, st =>
    (r.matchesFrom st).map (fun st' =>
      if index = 1 then
        { st' with capture := some (st.rest.take (st.rest.length - st'.rest.length)) }
      else st')

/-- The replacement `'<mark class="search-highlight">$1</mark>'` for a match
whose group 1 captured `capture` (nothing, when the group took no part). -/
def highlightMarkup (capture : Option (List Char)) : List Char :=
  "<mark class=\"search-highlight\">".toList ++ capture.getD [] ++ "</mark>".toList

/-- `text.replace(regex, '<mark class="search-highlight">$1</mark>')` for a
global `regex`, from a point of the text on: `skip` characters still belong to
the match just replaced. An empty match is followed by a step of one
character. -/
def replaceFrom (regex : Re) : Bool → Nat → List Char → List Char
  | atStart, _, [] =>
    match (regex.matchesFrom { atStart := atStart, rest := [], capture := none }).head? with
    | some m => highlightMarkup m.capture
    | none => []
  | _, skip + 1, _ :: rest => replaceFrom regex false skip rest
  | atStart, 0, c :: rest =>
    match (regex.matchesFrom { atStart := atStart, rest := c :: rest, capture := none }).head? with
    | none => c :: replaceFrom regex false 0 rest
    | some m =>
      match (c :: rest).length - m.rest.length with
      | 0 => highlightMarkup m.capture ++ c :: replaceFrom regex false 0 rest
      | consumed + 1 => highlightMarkup m.capture ++ replaceFrom regex false consumed rest

/-- `text.replace(regex, '<mark class="search-highlight">$1</mark>')`. -/
def replaceAll (regex : Re) (text : String) : String :=
  String.mk (replaceFrom regex true 0 text.toList)

/-! ## Markup -/

/-- Escaping of text by the HTML serialiser. -/
def escapeText : List Char → List Char
  | [] => []
  | c :: rest =>
    (if c = '&' then "&amp;".toList
     else if c.val = 0xA0 then "&nbsp;".toList
     else if c = '<' then "&lt;".toList
     else if c = '>' then "&gt;".toList
     else [c]) ++ escapeText rest

/-- Escaping of an attribute value by the HTML serialiser. -/
def escapeAttribute : List Char → List Char
  | [] => []
  | c :: rest =>
    (if c = '&' then "&amp;".toList
     else if c.val = 0xA0 then "&nbsp;".toList
     else if c = '"' then "&quot;".toList
     else [c]) ++ escapeAttribute rest

/-- The attributes of a start tag as the serialiser writes them. -/
def serializeAttributes : List (String × String) → List Char
  | [] => []
  | (name, value) :: rest =>
    ' ' :: name.toList ++ '=' :: '"' :: escapeAttribute value.toList ++ '"' :: serializeAttributes rest

/-- Elements the serialiser writes without content and end tag. -/
def voidElements : List String :=
  ["area", "base", "basefont", "bgsound", "br", "col", "embed", "frame", "hr", "img", "input",
   "keygen", "link", "meta", "param", "source", "track", "wbr"]

/-- Elements whose text children the serialiser writes unescaped. -/
def rawTextElements : List String :=
  ["style", "script", "xmp", "iframe", "noembed", "noframes", "plaintext", "noscript"]

/-- The HTML serialisation of a list of sibling nodes; `raw` tells whether
their parent is a raw text element. -/
def Dom.serialize (raw : Bool) : Dom → List Char
  | .nil => []
  | .text data next => (if raw then data.toList else escapeText data.toList) ++ next.serialize raw
  | .elem tag attributes children next =>
    '<' :: tag.toList ++ serializeAttributes attributes ++ '>' ::
      (if voidElements.contains tag then []
       else children.serialize (rawTextElements.contains tag) ++ '<' :: '/' :: tag.toList ++ ['>'])
      ++ next.serialize raw

/-- `element.innerHTML` read on an `li` with the given child nodes. -/
def Dom.innerHTML (d : Dom) : String := String.mk (d.serialize false)

/-- Elements the modelled parser reads: with correct nesting the HTML parser
inserts them as they come. -/
def ordinaryElements : List String :=
  ["mark", "span", "strong", "em", "b", "i", "u", "small", "code", "sub", "sup", "abbr"]

/-- Decode the character references of a run of text or of an attribute value;
`skip` characters still belong to the reference just decoded. The five
references the serialiser writes are decoded; `&` before anything but a letter,
a digit or `#` stands for itself; any other reference, a carriage return and
U+0000 are outside the model (`none`). -/
def decodeReferences : Nat → List Char → Option (List Char)
  | _, [] => some []
  | skip + 1, _ :: rest => decodeReferences skip rest
  | 0, c :: rest =>
    if c = '\r' ∨ c.val = 0 then none
    else if c = '&' then
      if "amp;".toList.isPrefixOf rest then (decodeReferences 4 rest).map (fun r => '&' :: r)
      else if "lt;".toList.isPrefixOf rest then (decodeReferences 3 rest).map (fun r => '<' :: r)
      else if "gt;".toList.isPrefixOf rest then (decodeReferences 3 rest).map (fun r => '>' :: r)
      else if "quot;".toList.isPrefixOf rest then (decodeReferences 5 rest).map (fun r => '"' :: r)
      else if "nbsp;".toList.isPrefixOf rest then
        (decodeReferences 5 rest).map (fun r => Char.ofNat 0xA0 :: r)
      else
        match rest with
        | d :: _ =>
          if d.isAlphanum ∨ d = '#' then none else (decodeReferences 0 rest).map (fun r => '&' :: r)
        | [] => some ['&']
    else (decodeReferences 0 rest).map (fun r => c :: r)

/-- Characters of a tag name or attribute name. -/
def isNameChar (c : Char) : Bool := c.isAlphanum || c = '-'

/-- Read the attributes of a start tag up to its `>`, in the form the
serialiser writes them (one space, the name, `="`, the escaped value, `"`);
of two attributes of one name the first is kept. Any other form is outside
the model. -/
def parseAttributes : Nat → List Char → Option (List (String × String) × List Char)
  | 0, _ => none
  | fuel + 1, input =>
    match input with
    | '>' :: rest => some ([], rest)
    | ' ' :: rest =>
      match rest.span isNameChar with
      | (c :: name, '=' :: '"' :: valueOn) =>
        match valueOn.span (fun d => d != '"') with
        | (value, '"' :: after) =>
          match decodeReferences 0 value, parseAttributes fuel after with
          | some v, some (attributes, rest') =>
            some ((toLowerCase (String.mk (c :: name)), String.mk v) ::
                    attributes.filter (fun a => a.1 != toLowerCase (String.mk (c :: name))), rest')
          | _, _ => none
        | _ => none
      | _ => none
    | _ => none

/-- Read sibling nodes up to the end tag of `parent`, or to the end of the
input when there is no parent. Outside the model (`none`): a tag that is not
an ordinary element or `br`, an end tag that does not close the innermost open
element, an element left open, `<` before anything but a name or `/`. -/
def parseNodes : Nat → Option String → List Char → Option (Dom × List Char)
  | 0, _, _ => none
  | fuel + 1, parent, input =>
    match input with
    | [] => if parent = none then some (.nil, []) else none
    | '<' :: '/' :: rest =>
      match rest.span isNameChar with
      | (name, '>' :: after) =>
        if parent = some (toLowerCase (String.mk name)) then some (.nil, after) else none
      | _ => none
    | '<' :: rest =>
      match rest.span isNameChar with
      | (name, after) =>
        match parseAttributes (after.length + 1) after with
        | none => none
        | some (attributes, inner) =>
          if toLowerCase (String.mk name) = "br" then
            match parseNodes fuel parent inner with
            | some (next, rest') => some (.elem "br" attributes .nil next, rest')
            | none => none
          else if ordinaryElements.contains (toLowerCase (String.mk name)) then
            match parseNodes fuel (some (toLowerCase (String.mk name))) inner with
            | some (children, afterEnd) =>
              match parseNodes fuel parent afterEnd with
              | some (next, rest') =>
                some (.elem (toLowerCase (String.mk name)) attributes children next, rest')
              | none => none
            | none => none
          else none
    | c :: rest =>
      match (c :: rest).span (fun d => d != '<') with
      | (run, after) =>
        match decodeReferences 0 run, parseNodes fuel parent after with
        | some data, some (next, rest') => some (.text (String.mk data) next, rest')
        | _, _ => none

/-- `element.innerHTML = markup` on an `li`: the child nodes the markup is
parsed to, inside the modelled fragment of HTML. -/
def parseHTML (markup : String) : Option Dom :=
  (parseNodes (markup.length + 1) none markup.toList).map (fun r => r.1)

/-! ## Specification search -/

/-- `highlightSearchTerm(element, term)`. -/
def highlightSearchTerm (item : SpecItem) (term : String) : Except Halt SpecItem :=
  match RegExp.compile ("(" ++ term ++ ")") with
  | .error h => .error h
  | .ok regex =>
    match parseHTML (replaceAll regex item.children.innerHTML) with
    | none => .error .outsideModel
    | some children => .ok { searchResult := true, children := children }

/-- The `forEach` of `performSearch` over the items, with the number of
items found. -/
def searchItems (searchTerm : String) : List SpecItem → Except Halt (List SpecItem × Nat)
  | [] => .ok ([], 0)
  | item :: rest =>
    if includes (toLowerCase item.children.textContent) searchTerm then
      match highlightSearchTerm item searchTerm with
      | .error h => .error h
      | .ok item' =>
        match searchItems searchTerm rest with
        | .error h => .error h
        | .ok (items, found) => .ok (item' :: items, found + 1)
    else
      match searchItems searchTerm rest with
      | .error h => .error h
      | .ok (items, found) => .ok (item :: items, found)

/-- `performSearch(query)`. -/
def performSearch (query : String) (s : SearchPage) : Except Halt SearchPage :=
  if trim query = "" then .ok (clearSearchHighlights s)
  else
    match searchItems (toLowerCase query) (clearSearchHighlights s).items with
    | .error h => .error h
    | .ok (items, found) =>
      .ok { items := items
            console := (clearSearchHighlights s).console ++
              ["Found " ++ toString found ++ " results for \"" ++ query ++ "\""] }

/-- Number of occurrences of `term` in the text, read left to right without
overlap, ASCII case ignored; `skip` characters still belong to the occurrence
just counted. These are the occurrences a literal search has to wrap. -/
def countOccurrences (term : List Char) : Nat → List Char → Nat
  | _, [] => 0
  | skip + 1, _ :: rest => countOccurrences term skip rest
  | 0, c :: rest =>
    if term ≠ [] ∧ (term.map Char.toLower).isPrefixOf ((c :: rest).map Char.toLower) then
      1 + countOccurrences term (term.length - 1) rest
    else countOccurrences term 0 rest

/-! ## Image modal -/

/-- A `.gallery-img` image: its `data-src` attribute, its `src` as the property
reports it (an absolute URL), and its `alt`. -/
structure GalleryImage where
  dataSrc : Option String
  src : String
  alt : String
  deriving DecidableEq, Repr

/-- `#modalImage`: its `src` as the property reports it, and its `alt`. -/
structure ModalImage where
  src : String
  alt : String
  deriving DecidableEq, Repr

/-- The gallery images in document order and the modal image, `none` when the
page has no `#modalImage`. -/
structure Gallery where
  images : List GalleryImage
  modalImage : Option ModalImage
  deriving DecidableEq, Repr

/-- `img.getAttribute("data-src") || img.src`. -/
def GalleryImage.source (img : GalleryImage) : String := orElse img.dataSrc img.src

/-- The click listener `initializeImageModal()` puts on a gallery image.
`resolve` is what the browser makes of a string assigned to `src`: the absolute
URL that reading `src` then returns. -/
def galleryClick (resolve : String → String) (img : GalleryImage) (g : Gallery) :
    Except JsError Gallery :=
  match g.modalImage with
  | none => .error .typeError
  | some _ => .ok { g with modalImage := some { src := resolve img.source, alt := img.alt } }

/-- `Array.prototype.findIndex`, counting from `start`: the index of the first
element that satisfies `p`, or `-1`. -/
def findIndexFrom {α : Type} (p : α → Bool) (start : Int) : List α → Int
  | [] => -1
  | a :: rest => if p a then start else findIndexFrom p (start + 1) rest

/-- `array[index]` for a numeric index, `none` being `undefined`. -/
def elementAt {α : Type} (l : List α) (index : Int) : Option α :=
  if 0 ≤ index then l[index.toNat]? else none

/-- The `keydown` listener `initializeImageModal()` puts on the modal. -/
def modalKeydown (resolve : String → String) (key : String) (g : Gallery) :
    Except JsError Gallery :=
  if key = "ArrowLeft" ∨ key = "ArrowRight" then
    match g.modalImage with
    | none => .error .typeError
    | some modalImage =>
      let currentIndex := findIndexFrom (fun img => img.source = modalImage.src) 0 g.images
      let nextIndex : Int :=
        if key = "ArrowLeft" then
          if currentIndex > 0 then currentIndex - 1 else (g.images.length : Int) - 1
        else
          if currentIndex < (g.images.length : Int) - 1 then currentIndex + 1 else 0
      match elementAt g.images nextIndex with
      | none => .error .typeError
      | some nextImg =>
        .ok { g with modalImage := some { src := resolve nextImg.source, alt := nextImg.alt } }
  else .ok g

/-! ## Scrolling -/

/-- `handleScroll()`: `navbar` is whether `#mainNavbar` carries the class
`scrolled`, `none` when the page has no such element. -/
def handleScroll (navbar : Option Bool) (scrollY : ℚ) : Except JsError (Option Bool) :=
  match navbar with
  | none => .error .typeError
  | some _ => .ok (some (decide (scrollY > 100)))

/-- The click listener of `initializeSmoothScrolling()` on a link whose target
exists in the page or not (`target` is its `offsetTop`), on a page with a
`.navbar` of the given `offsetHeight` or without one. The result is the
position passed to `window.scrollTo`, if it is called. -/
def smoothScrollClick (target : Option Int) (navbar : Option Nat) : Except JsError (Option Int) :=
  match target with
  | none => .ok none
  | some offsetTop =>
    match navbar with
    | none => .error .typeError
    | some headerHeight => .ok (some (offsetTop - headerHeight - 20))

/-- A section of the page: its `offsetTop` and `offsetHeight`. -/
structure Section where
  offsetTop : Int
  offsetHeight : Nat
  deriving DecidableEq, Repr

/-- An element of class `timeline-item`: its `href` attribute and whether it
carries the class `active`. -/
structure TimelineItem where
  href : Option String
  active : Bool
  deriving DecidableEq, Repr

/-- What `updateActiveTimelineItem()` reads and writes: the elements with an
id, in document order; the timeline items of the first `.generation-timeline`,
`none` when the page has none; `window.scrollY` and `window.innerHeight`. -/
structure ScrollPage where
  sections : List (String × Section)
  timeline : Option (List TimelineItem)
  scrollY : ℚ
  innerHeight : ℚ
  deriving DecidableEq

/-- `document.getElementById(id)`. -/
def ScrollPage.getElementById (p : ScrollPage) (id : String) : Option Section :=
  (p.sections.find? (fun entry => entry.1 = id)).map (fun entry => entry.2)

/-- The sections `updateActiveTimelineItem()` tracks, in its order. -/
def trackedSections : List String := ["rd1", "rd2", "gk1", "gk2"]

/-- `window.scrollY + window.innerHeight / 2`. -/
def ScrollPage.scrollPosition (p : ScrollPage) : ℚ := p.scrollY + p.innerHeight / 2

/-- The test of `updateActiveTimelineItem()` on one section. -/
def ScrollPage.inSection (p : ScrollPage) (s : Section) : Bool :=
  decide (p.scrollPosition ≥ s.offsetTop) && decide (p.scrollPosition < s.offsetTop + s.offsetHeight)

/-- The body of the first `forEach` of `updateActiveTimelineItem()`. -/
def ScrollPage.visitSection (p : ScrollPage) (activeSection : Option String) (sectionId : String) :
    Option String :=
  match p.getElementById sectionId with
  | none => activeSection
  | some s => if p.inSection s then some sectionId else activeSection

/-- `activeSection` after the first `forEach` of `updateActiveTimelineItem()`. -/
def ScrollPage.activeSection (p : ScrollPage) : Option String :=
  trackedSections.foldl p.visitSection none

/-- `updateActiveTimelineItem()`. -/
def updateActiveTimelineItem (p : ScrollPage) : ScrollPage :=
  match p.timeline with
  | none => p
  | some items =>
    { p with timeline := some (items.map (fun item =>
        { item with active :=
            match p.activeSection with
            | none => false
            | some id => decide (item.href = some ("#" ++ id)) })) }

/-- The timeline items `addTimelineNavigation()` builds, with the given
`active` marks. -/
def builtTimeline (rd1 rd2 gk1 gk2 : Bool) : List TimelineItem :=
  [ { href := some "#rd1", active := rd1 }, { href := some "#rd2", active := rd2 },
    { href := some "#gk1", active := gk1 }, { href := some "#gk2", active := gk2 } ]

/-- The timeline items that carry the class `active`. -/
def ScrollPage.activeItems (p : ScrollPage) : List TimelineItem :=
  (p.timeline.getD []).filter (fun item => item.active)

/-- The tracked sections `updateActiveTimelineItem()` visits after `id`. -/
def sectionsAfter (id : String) : List String :=
  (trackedSections.dropWhile (fun other => other != id)).drop 1

/-! ## Sequences of toggles -/

/-- A call of one of the two toggles. The wrappers `addLiveRegions()` installs
over them call the methods modelled here and then write to the live region,
which is no part of the modelled state. -/
inductive Toggle where
  | theme
  | language
  deriving DecidableEq, Repr

/-- The calls of a list, one after the other. -/
def runToggles (parse : String → String → Dom) : List Toggle → World → Except JsError World
  | [], w => .ok w
  | .theme :: rest, w =>
    match toggleTheme w with
    | .error e => .error e
    | .ok w' => runToggles parse rest w'
  | .language :: rest, w =>
    match toggleLanguage parse w with
    | .error e => .error e
    | .ok w' => runToggles parse rest w'

/-- `performSearch(query)` called twice in succession. -/
def performSearchTwice (query : String) (s : SearchPage) : Except Halt SearchPage :=
  match performSearch query s with
  | .error h => .error h
  | .ok s' => performSearch query s'

/-! ## The query `2.0` on plain text -/

/-- The pattern `new RegExp("(2.0)", "gi")`. -/
def litrePattern : Re := .group 1 (.seq (.char '2') (.seq .any (.char '0')))

/-- Whether the text begins with `2`, a character that is no line terminator,
and `0`: a match of `litrePattern`. -/
def beginsWithHit : List Char → Bool
  | c1 :: c2 :: c3 :: _ => '2' = c1.toLower && !isLineTerminator c2 && '0' = c3.toLower
  | _ => false

/-- A character that the HTML serialiser writes as it is and the parser reads
as it is inside text. -/
def isPlainChar (c : Char) : Bool :=
  c != '&' && c != '<' && c != '>' && c.val != 0xA0 && c != '\r' && c.val != 0

/-- A text node for the characters, none when there are no characters. -/
def textNode (data : List Char) (next : Dom) : Dom :=
  if data.isEmpty then next else .text (String.mk data) next

/-- The nodes that highlighting the matches of `litrePattern` makes of a plain
text: `pending` is the text read since the last marker, `skip` the number of
characters that still belong to the match just wrapped. -/
def litreNodes (pending : List Char) : Nat → List Char → Dom
  | _, [] => textNode pending .nil
  | skip + 1, _ :: rest => litreNodes pending skip rest
  | 0, c :: rest =>
    if beginsWithHit (c :: rest) then
      textNode pending
        (.elem "mark" [("class", "search-highlight")]
          (.text (String.mk ((c :: rest).take 3)) .nil) (litreNodes [] 2 rest))
    else litreNodes (pending ++ [c]) 0 rest

/-- The text contents of the `.search-highlight` elements among the nodes and
their descendants, in document order. -/
def Dom.highlightedTexts : Dom → List String
  | .nil => []
  | .text _ next => next.highlightedTexts
  | .elem _ attributes children next =>
    (if hasClass "search-highlight" attributes then [children.textContent] else [])
      ++ children.highlightedTexts ++ next.highlightedTexts

/-! ## Sample states -/

/-- A page with nothing on it but the image modal. -/
def barePage : Page :=
  { dataTheme := none, lang := none, dir := none, themeIcon := none, langToggleSpan := none,
    title := "", metaDescription := none, body := .nil, imageModal := true,
    navbarControls := false, detailsContainers := 0, specsSections := 0 }

/-- The controller built on the bare page when the storage is empty: the state
a first visit leaves before any toggle. -/
def firstVisit : World :=
  { currentLanguage := "en", currentTheme := "light", storage := .available []
    page := { barePage with
      dataTheme := some "light", lang := some "en", dir := some "ltr"
      title := "Hyundai Coupe (Tiburon) - Complete Guide - RD & GK Generations" } }

/-- The controller built on the bare page when the storage holds the theme
`blue`. -/
def blueVisit : World :=
  { currentLanguage := "en", currentTheme := "blue"
    storage := .available [("hyundai-coupe-theme", "blue")]
    page := { barePage with
      dataTheme := some "blue", lang := some "en", dir := some "ltr"
      title := "Hyundai Coupe (Tiburon) - Complete Guide - RD & GK Generations" } }

/-- The HTML parser on the sample states, which assign markup that `parseHTML`
reads; there the context element makes no difference. For other markup this
function gives no nodes, which is not what a browser does. -/
def sampleParser (_context markup : String) : Dom := (parseHTML markup).getD .nil

/-- A page with a translatable heading, a translatable search box, and a block
that is not translatable and holds an element whose Arabic text is empty and a
plain paragraph. -/
def samplePage : Page :=
  { barePage with
    langToggleSpan := some "العربية"
    metaDescription := some ""
    body :=
      .elem "h1" [("data-en", "History"), ("data-ar", "التاريخ")] (.text "History" .nil)
        (.elem "input" [("data-en", "Search"), ("data-ar", "بحث")] .nil
          (.elem "div" [("class", "specs")]
            (.elem "span" [("data-en", "RD1"), ("data-ar", "")] (.text "RD1" .nil)
              (.elem "p" [("class", "lead")] (.text "1996" .nil) .nil))
            .nil)) }

/-- A page with one translatable item whose English text is written with
markup. -/
def markupPage : Page :=
  { barePage with
    body := .elem "li" [("data-en", "<b>RD & GK</b>"), ("data-ar", "RD و GK")]
      (.text "RD, GK" .nil) .nil }

/-- A page with a translatable block that holds a translatable element whose
Arabic text is empty. -/
def nestedPage : Page :=
  { barePage with
    body := .elem "div" [("data-en", "Coupe"), ("data-ar", "كوبيه")]
      (.elem "span" [("data-en", "RD1"), ("data-ar", "")] (.text "RD1" .nil) .nil) .nil }

/-- An item holding one text node. -/
def plainItem (text : String) : SpecItem := { searchResult := false, children := .text text .nil }

/-- Two specification items, without highlights. -/
def engineItems : SearchPage :=
  { items := [plainItem "2.0L 250", plainItem "1.6L"], console := [] }

/-- The page `performSearch("2.0")` leaves from `engineItems`. -/
def searchedPage : SearchPage :=
  { items :=
      [ { searchResult := true
          children :=
            .elem "mark" [("class", "search-highlight")] (.text "2.0" .nil)
              (.text "L "
                (.elem "mark" [("class", "search-highlight")] (.text "250" .nil) .nil)) },
        plainItem "1.6L" ]
    console := ["Found 1 results for \"2.0\""] }

/-- One specification item, `R&D`, without highlights. -/
def ampersandPage : SearchPage := { items := [plainItem "R&D"], console := [] }

/-- One specification item, `f(x)`, without highlights. -/
def parenthesisPage : SearchPage := { items := [plainItem "f(x)"], console := [] }

/-- One specification item, `Engine 2.0L`, without highlights. -/
def litrePage : SearchPage := { items := [plainItem "Engine 2.0L"], console := [] }

/-- The page with the one item `Engine 2.<sub>0L</sub>`. -/
def subscriptPage : SearchPage :=
  { items := [ { searchResult := false
                 children := .text "Engine 2." (.elem "sub" [] (.text "0L" .nil) .nil) } ]
    console := [] }

/-- A page whose sections `rd1` and `rd2` start at 600 and 1400, scrolled to
the top of a window 800 high (reference position 400), with the built
timeline on which two items are marked active. -/
def abovePage : ScrollPage :=
  { sections := [("rd1", { offsetTop := 600, offsetHeight := 800 }),
                 ("rd2", { offsetTop := 1400, offsetHeight := 900 })]
    timeline := some (builtTimeline true false true false)
    scrollY := 0, innerHeight := 800 }

/-- A page scrolled to 200 in a window 800 high (reference position 600), the
top of `rd1`; `rd2` starts at 1400. The built timeline has `gk1` marked. -/
def topPage : ScrollPage :=
  { sections := [("rd1", { offsetTop := 600, offsetHeight := 800 }),
                 ("rd2", { offsetTop := 1400, offsetHeight := 900 })]
    timeline := some (builtTimeline false false true false)
    scrollY := 200, innerHeight := 800 }

/-- A page whose section `rd1` has no height, with the reference position 400
at its top. -/
def emptySectionPage : ScrollPage :=
  { sections := [("rd1", { offsetTop := 400, offsetHeight := 0 }),
                 ("rd2", { offsetTop := 1400, offsetHeight := 900 })]
    timeline := some (builtTimeline false false false false)
    scrollY := 0, innerHeight := 800 }

/-- A page on which `rd2` begins above the top of `rd1` and extends over it,
with the reference position 400 at the top of `rd1`. -/
def overlapPage : ScrollPage :=
  { sections := [("rd1", { offsetTop := 400, offsetHeight := 800 }),
                 ("rd2", { offsetTop := 300, offsetHeight := 900 })]
    timeline := some (builtTimeline false false false false)
    scrollY := 0, innerHeight := 800 }

/-- What the browser makes of a string assigned to `src` on a page of
`https://coupe.example/`, for the strings used here: an `https` URL stays as
it is, anything else is taken relative to the site root. -/
def siteUrl (url : String) : String :=
  if "https://".toList.isPrefixOf url.toList then url else "https://coupe.example/" ++ url

/-- Three gallery images with distinct absolute sources, the last one shown in
the modal. -/
def distinctGallery : Gallery :=
  { images :=
      [ { dataSrc := some "https://coupe.example/img/rd1.jpg",
          src := "https://coupe.example/thumb/rd1.jpg", alt := "RD1" },
        { dataSrc := some "https://coupe.example/img/rd2.jpg",
          src := "https://coupe.example/thumb/rd2.jpg", alt := "RD2" },
        { dataSrc := some "https://coupe.example/img/gk1.jpg",
          src := "https://coupe.example/thumb/gk1.jpg", alt := "GK1" } ]
    modalImage := some { src := "https://coupe.example/img/gk1.jpg", alt := "GK1" } }

/-- Three gallery images of which the first and the last have the same source,
the last one shown in the modal. -/
def twinGallery : Gallery :=
  { images :=
      [ { dataSrc := some "https://coupe.example/img/rd1.jpg",
          src := "https://coupe.example/thumb/rd1.jpg", alt := "RD1 front" },
        { dataSrc := some "https://coupe.example/img/rd2.jpg",
          src := "https://coupe.example/thumb/rd2.jpg", alt := "RD2" },
        { dataSrc := some "https://coupe.example/img/rd1.jpg",
          src := "https://coupe.example/thumb/rd1b.jpg", alt := "RD1 rear" } ]
    modalImage := some { src := "https://coupe.example/img/rd1.jpg", alt := "RD1 rear" } }

/-- Three gallery images whose `data-src` attributes are relative URLs, after a
click on the second one. -/
def relativeGallery : Gallery :=
  { images :=
      [ { dataSrc := some "img/rd1.jpg", src := "https://coupe.example/thumb/rd1.jpg",
          alt := "RD1" },
        { dataSrc := some "img/rd2.jpg", src := "https://coupe.example/thumb/rd2.jpg",
          alt := "RD2" },
        { dataSrc := some "img/gk1.jpg", src := "https://coupe.example/thumb/gk1.jpg",
          alt := "GK1" } ]
    modalImage := some { src := "https://coupe.example/img/rd2.jpg", alt := "RD2" } }

/-! ## Preferences: reading -/

theorem lookup_store_same (key value : String) (entries : List (String × String)) :
    lookup key (store key value entries) = some value := by
  induction entries with
  | nil => simp [store, lookup]
  | cons kv rest ih =>
    obtain ⟨k, v⟩ := kv
    by_cases h : k = key
    · simp [store, lookup, h]
    · simp [store, lookup, h, ih]

theorem lookup_store_other (key other value : String) (entries : List (String × String))
    (h : other ≠ key) : lookup other (store key value entries) = lookup other entries := by
  induction entries with
  | nil => simp [store, lookup, h.symm]
  | cons kv rest ih =>
    obtain ⟨k, v⟩ := kv
    by_cases hk : k = key
    · subst hk
      simp [store, lookup, h.symm]
    · by_cases ho : k = other
      · subst ho
        simp [store, lookup, hk]
      · simp [store, lookup, hk, ho, ih]

/-- C1, as the code has it: on an available storage `getStoredTheme` returns the
value stored under `hyundai-coupe-theme` when that value is a non-empty string,
and `light` when nothing or the empty string is stored; `getStoredLanguage`
does the same with `hyundai-coupe-language` and `en`. -/
theorem getStored_available (entries : List (String × String)) :
    (∀ v, lookup "hyundai-coupe-theme" entries = some v → v ≠ "" →
        getStoredTheme (.available entries) = .ok v) ∧
    (lookup "hyundai-coupe-theme" entries = none ∨ lookup "hyundai-coupe-theme" entries = some "" →
        getStoredTheme (.available entries) = .ok "light") ∧
    (∀ v, lookup "hyundai-coupe-language" entries = some v → v ≠ "" →
        getStoredLanguage (.available entries) = .ok v) ∧
    (lookup "hyundai-coupe-language" entries = none ∨
        lookup "hyundai-coupe-language" entries = some "" →
        getStoredLanguage (.available entries) = .ok "en") := by
  refine ⟨?_, ?_, ?_, ?_⟩
  · intro v hv hne
    simp [getStoredTheme, Storage.getItem, hv, orElse, hne]
  · rintro (h | h) <;> simp [getStoredTheme, Storage.getItem, h, orElse]
  · intro v hv hne
    simp [getStoredLanguage, Storage.getItem, hv, orElse, hne]
  · rintro (h | h) <;> simp [getStoredLanguage, Storage.getItem, h, orElse]

/-- C1 fails as stated: with the empty string stored under both keys a value is
present, yet the getters return the defaults rather than the stored value. -/
theorem getStored_empty_string_counterexample :
    lookup "hyundai-coupe-theme"
        [("hyundai-coupe-theme", ""), ("hyundai-coupe-language", "")] = some "" ∧
    getStoredTheme (.available [("hyundai-coupe-theme", ""), ("hyundai-coupe-language", "")])
      = .ok "light" ∧
    lookup "hyundai-coupe-language"
        [("hyundai-coupe-theme", ""), ("hyundai-coupe-language", "")] = some "" ∧
    getStoredLanguage (.available [("hyundai-coupe-theme", ""), ("hyundai-coupe-language", "")])
      = .ok "en" := by
  decide

/-- C2, as the code has it: when the storage read throws, `getStoredTheme` and
`getStoredLanguage` throw the same error, and so does the constructor, on every
page: no controller is built. -/
theorem storage_failure_propagates (parse : String → String → Dom) (page : Page) :
    getStoredTheme .denied = .error .securityError ∧
    getStoredLanguage .denied = .error .securityError ∧
    constructor parse .denied page = .error .securityError := by
  refine ⟨rfl, rfl, rfl⟩

/-- C2 fails as stated: with the storage denied neither getter returns the value
it falls back to, and constructing the controller on the bare page does not
complete. -/
theorem storage_failure_counterexample :
    getStoredTheme .denied ≠ .ok "light" ∧
    getStoredLanguage .denied ≠ .ok "en" ∧
    ∀ w, constructor sampleParser .denied barePage ≠ .ok w := by
  refine ⟨by decide, by decide, ?_⟩
  intro w h
  simp [constructor, getStoredLanguage, Storage.getItem] at h

/-! ## Preferences: toggling -/

@[simp] theorem updateThemeIcon_currentTheme (w : World) :
    (updateThemeIcon w).currentTheme = w.currentTheme := by
  unfold updateThemeIcon; split <;> rfl

@[simp] theorem updateThemeIcon_currentLanguage (w : World) :
    (updateThemeIcon w).currentLanguage = w.currentLanguage := by
  unfold updateThemeIcon; split <;> rfl

@[simp] theorem updateThemeIcon_storage (w : World) :
    (updateThemeIcon w).storage = w.storage := by
  unfold updateThemeIcon; split <;> rfl

@[simp] theorem updateThemeIcon_dataTheme (w : World) :
    (updateThemeIcon w).page.dataTheme = w.page.dataTheme := by
  unfold updateThemeIcon; split <;> rfl

@[simp] theorem updateThemeIcon_imageModal (w : World) :
    (updateThemeIcon w).page.imageModal = w.page.imageModal := by
  unfold updateThemeIcon; split <;> rfl

@[simp] theorem updateThemeIcon_lang (w : World) :
    (updateThemeIcon w).page.lang = w.page.lang := by
  unfold updateThemeIcon; split <;> rfl

@[simp] theorem updateThemeIcon_dir (w : World) :
    (updateThemeIcon w).page.dir = w.page.dir := by
  unfold updateThemeIcon; split <;> rfl

theorem toggleTheme_available (w : World) (entries : List (String × String))
    (hs : w.storage = .available entries) :
    toggleTheme w = .ok (updateThemeIcon
      { w with currentTheme := otherTheme w.currentTheme
               storage := .available (store "hyundai-coupe-theme" (otherTheme w.currentTheme) entries)
               page := { w.page with dataTheme := some (otherTheme w.currentTheme) } }) := by
  simp only [toggleTheme, setStoredTheme, Storage.setItem, hs, otherTheme]

theorem toggleLanguage_available (parse : String → String → Dom) (w : World)
    (entries : List (String × String)) (hs : w.storage = .available entries) :
    toggleLanguage parse w = .ok
      { w with currentLanguage := otherLanguage w.currentLanguage
               storage := .available
                 (store "hyundai-coupe-language" (otherLanguage w.currentLanguage) entries)
               page := applyLanguage parse (otherLanguage w.currentLanguage) w.page } := by
  simp only [toggleLanguage, setStoredLanguage, Storage.setItem, hs, otherLanguage]

/-- C3: on a theme of `light` or `dark` (the storage accepting writes),
`toggleTheme` completes, sets the current theme to the other of the two values,
stores that value under `hyundai-coupe-theme` and sets `data-theme` to it; on a
language of `en` or `ar`, `toggleLanguage` completes, sets the current language
to the other value, stores it under `hyundai-coupe-language` and applies it to
the document, whose `lang` is then the new language. -/
theorem toggle_flips_persists_applies (parse : String → String → Dom) (w : World)
    (entries : List (String × String)) (hs : w.storage = .available entries) :
    ((w.currentTheme = "light" ∨ w.currentTheme = "dark") →
      ∃ w', toggleTheme w = .ok w' ∧
        (w.currentTheme = "light" → w'.currentTheme = "dark") ∧
        (w.currentTheme = "dark" → w'.currentTheme = "light") ∧
        w'.storage = .available (store "hyundai-coupe-theme" w'.currentTheme entries) ∧
        w'.storage.getItem "hyundai-coupe-theme" = .ok (some w'.currentTheme) ∧
        w'.page.dataTheme = some w'.currentTheme) ∧
    ((w.currentLanguage = "en" ∨ w.currentLanguage = "ar") →
      ∃ w', toggleLanguage parse w = .ok w' ∧
        (w.currentLanguage = "en" → w'.currentLanguage = "ar") ∧
        (w.currentLanguage = "ar" → w'.currentLanguage = "en") ∧
        w'.storage = .available (store "hyundai-coupe-language" w'.currentLanguage entries) ∧
        w'.storage.getItem "hyundai-coupe-language" = .ok (some w'.currentLanguage) ∧
        w'.page = applyLanguage parse w'.currentLanguage w.page ∧
        w'.page.lang = some w'.currentLanguage) := by
  constructor
  · intro _
    refine ⟨_, toggleTheme_available w entries hs, ?_, ?_, ?_, ?_, ?_⟩
    · intro h; simp [otherTheme, h]
    · intro h; simp [otherTheme, h]
    · simp
    · simp [Storage.getItem, lookup_store_same]
    · simp
  · intro _
    refine ⟨_, toggleLanguage_available parse w entries hs, ?_, ?_, ?_, ?_, ?_, ?_⟩
    · intro h; simp [otherLanguage, h]
    · intro h; simp [otherLanguage, h]
    · simp
    · simp [Storage.getItem, lookup_store_same]
    · simp
    · simp [applyLanguage]

/-- C3 at a concrete state: the first visit. -/
theorem toggle_flips_persists_applies_witness :
    ((firstVisit.currentTheme = "light" ∨ firstVisit.currentTheme = "dark") →
      ∃ w', toggleTheme firstVisit = .ok w' ∧
        (firstVisit.currentTheme = "light" → w'.currentTheme = "dark") ∧
        (firstVisit.currentTheme = "dark" → w'.currentTheme = "light") ∧
        w'.storage = .available (store "hyundai-coupe-theme" w'.currentTheme []) ∧
        w'.storage.getItem "hyundai-coupe-theme" = .ok (some w'.currentTheme) ∧
        w'.page.dataTheme = some w'.currentTheme) ∧
    ((firstVisit.currentLanguage = "en" ∨ firstVisit.currentLanguage = "ar") →
      ∃ w', toggleLanguage sampleParser firstVisit = .ok w' ∧
        (firstVisit.currentLanguage = "en" → w'.currentLanguage = "ar") ∧
        (firstVisit.currentLanguage = "ar" → w'.currentLanguage = "en") ∧
        w'.storage = .available (store "hyundai-coupe-language" w'.currentLanguage []) ∧
        w'.storage.getItem "hyundai-coupe-language" = .ok (some w'.currentLanguage) ∧
        w'.page = applyLanguage sampleParser w'.currentLanguage firstVisit.page ∧
        w'.page.lang = some w'.currentLanguage) :=
  toggle_flips_persists_applies sampleParser firstVisit [] rfl

/-- C4 fails as stated: on the first visit nothing is stored under
`hyundai-coupe-theme`, and after two toggles `light` is; and from the theme
`blue`, which the controller takes over from the storage as it is, two toggles
lead to `dark`. -/
theorem toggleThemeTwice_counterexample :
    constructor sampleParser (.available []) barePage = .ok firstVisit ∧
    firstVisit.storage.getItem "hyundai-coupe-theme" = .ok none ∧
    (∃ w2, toggleThemeTwice firstVisit = .ok w2 ∧
      w2.currentTheme = firstVisit.currentTheme ∧
      w2.storage.getItem "hyundai-coupe-theme" = .ok (some "light")) ∧
    constructor sampleParser (.available [("hyundai-coupe-theme", "blue")]) barePage = .ok blueVisit ∧
    (∃ w2, toggleThemeTwice blueVisit = .ok w2 ∧ w2.currentTheme = "dark") := by
  refine ⟨by decide, by decide, ⟨_, rfl, by decide, by decide⟩, by decide, ⟨_, rfl, by decide⟩⟩

/-- C4, as the code has it: on a theme of `light` or `dark` (the storage
accepting writes) two toggles in succession complete and leave the current
theme as it was; the stored theme entry is then that theme, so it is the
original stored entry whenever that entry held the current theme. -/
theorem toggleThemeTwice_restores (w : World) (entries : List (String × String))
    (hs : w.storage = .available entries)
    (ht : w.currentTheme = "light" ∨ w.currentTheme = "dark") :
    ∃ w2, toggleThemeTwice w = .ok w2 ∧
      w2.currentTheme = w.currentTheme ∧
      w2.storage.getItem "hyundai-coupe-theme" = .ok (some w.currentTheme) ∧
      (w.storage.getItem "hyundai-coupe-theme" = .ok (some w.currentTheme) →
        w2.storage.getItem "hyundai-coupe-theme" = w.storage.getItem "hyundai-coupe-theme") := by
  have h1 := toggleTheme_available w entries hs
  have h2 := toggleTheme_available (updateThemeIcon
      { w with currentTheme := otherTheme w.currentTheme
               storage := .available (store "hyundai-coupe-theme" (otherTheme w.currentTheme) entries)
               page := { w.page with dataTheme := some (otherTheme w.currentTheme) } })
      (store "hyundai-coupe-theme" (otherTheme w.currentTheme) entries) (by simp)
  have hback : otherTheme (otherTheme w.currentTheme) = w.currentTheme := by
    rcases ht with h | h <;> simp [otherTheme, h]
  refine ⟨_, by simp only [toggleThemeTwice, h1]; exact h2, ?_, ?_, ?_⟩
  · simp [hback]
  · simp [hback, Storage.getItem, lookup_store_same]
  · intro h
    rw [h]
    simp [hback, Storage.getItem, lookup_store_same]

/-- C4 amended, at a concrete state: the first visit after one toggle (theme
`dark`, stored `dark`). -/
theorem toggleThemeTwice_restores_witness :
    ∃ w2, toggleThemeTwice
        { firstVisit with currentTheme := "dark",
                          storage := .available [("hyundai-coupe-theme", "dark")] } = .ok w2 ∧
      w2.currentTheme = "dark" ∧
      w2.storage.getItem "hyundai-coupe-theme" = .ok (some "dark") ∧
      ((Storage.available [("hyundai-coupe-theme", "dark")]).getItem "hyundai-coupe-theme"
          = .ok (some "dark") →
        w2.storage.getItem "hyundai-coupe-theme"
          = (Storage.available [("hyundai-coupe-theme", "dark")]).getItem "hyundai-coupe-theme") :=
  toggleThemeTwice_restores
    { firstVisit with currentTheme := "dark",
                      storage := .available [("hyundai-coupe-theme", "dark")] }
    [("hyundai-coupe-theme", "dark")] rfl (Or.inr rfl)

/-! ## Applying a language -/

/-- C5: for every language argument `applyLanguage` sets `lang` to that
language and `dir` to `rtl` exactly when the language is `ar`, to `ltr`
otherwise; in particular `ltr` for `en`. -/
theorem applyLanguage_lang_dir (parse : String → String → Dom) (language : String) (p : Page) :
    (applyLanguage parse language p).lang = some language ∧
    ((applyLanguage parse language p).dir = some "rtl" ↔ language = "ar") ∧
    (language ≠ "ar" → (applyLanguage parse language p).dir = some "ltr") ∧
    (applyLanguage parse "en" p).dir = some "ltr" ∧
    (applyLanguage parse "ar" p).dir = some "rtl" := by
  refine ⟨rfl, ?_, ?_, rfl, rfl⟩
  · by_cases h : language = "ar" <;> simp [applyLanguage, h]
  · intro h
    simp [applyLanguage, h]

theorem store_store_same (key value : String) (entries : List (String × String)) :
    store key value (store key value entries) = store key value entries := by
  induction entries with
  | nil => simp [store]
  | cons kv rest ih =>
    obtain ⟨k, v⟩ := kv
    by_cases h : k = key
    · simp [store, h]
    · simp [store, h, ih]

theorem getAttribute_supported (language : String) (h : language = "en" ∨ language = "ar")
    (e : Element) : e.getAttribute ("data-" ++ language) = lookup ("data-" ++ language) e.attributes := by
  rcases h with rfl | rfl
  · show lookup (asciiLower ("data-" ++ "en")) e.attributes = _
    rw [show asciiLower ("data-" ++ "en") = "data-" ++ "en" by decide]
  · show lookup (asciiLower ("data-" ++ "ar")) e.attributes = _
    rw [show asciiLower ("data-" ++ "ar") = "data-" ++ "ar" by decide]

theorem lookup_data_placeholder (language value : String) (h : language = "en" ∨ language = "ar")
    (attributes : List (String × String)) :
    lookup ("data-" ++ language) (store "placeholder" value attributes)
      = lookup ("data-" ++ language) attributes := by
  rcases h with rfl | rfl
  · exact lookup_store_other _ _ _ _ (by decide)
  · exact lookup_store_other _ _ _ _ (by decide)

theorem isTranslatable_setPlaceholder (e : Element) (value : String) :
    (e.setAttribute "placeholder" value).isTranslatable = e.isTranslatable := by
  simp only [Element.isTranslatable, Element.setAttribute]
  rw [lookup_store_other _ _ _ _ (by decide : "data-en" ≠ "placeholder"),
    lookup_store_other _ _ _ _ (by decide : "data-ar" ≠ "placeholder")]

theorem translateElement_cases (parse : String → String → Dom) (language : String)
    (hL : language = "en" ∨ language = "ar") (e : Element) :
    (∃ t, e.isTranslatable = true ∧ lookup ("data-" ++ language) e.attributes = some t ∧ t ≠ "" ∧
        ¬ (e.tagName = "INPUT" ∨ e.tagName = "TEXTAREA") ∧ e.isAssigned language = true ∧
        translateElement parse language e = { e with children := parse e.localName t }) ∨
    (∃ t, e.isTranslatable = true ∧ lookup ("data-" ++ language) e.attributes = some t ∧ t ≠ "" ∧
        (e.tagName = "INPUT" ∨ e.tagName = "TEXTAREA") ∧ e.isAssigned language = false ∧
        translateElement parse language e = e.setAttribute "placeholder" t) ∨
    ((e.isTranslatable = false ∨ lookup ("data-" ++ language) e.attributes = none ∨
        lookup ("data-" ++ language) e.attributes = some "") ∧ e.isAssigned language = false ∧
        translateElement parse language e = e) := by
  have hget := getAttribute_supported language hL e
  by_cases ht : e.isTranslatable = true
  · cases hlook : lookup ("data-" ++ language) e.attributes with
    | none =>
      refine Or.inr (Or.inr ⟨Or.inr (Or.inl rfl), ?_, ?_⟩)
      · simp [Element.isAssigned, hget, hlook]
      · simp [translateElement, ht, hget, hlook]
    | some t =>
      by_cases hne : t = ""
      · subst hne
        refine Or.inr (Or.inr ⟨Or.inr (Or.inr rfl), ?_, ?_⟩)
        · simp [Element.isAssigned, hget, hlook]
        · simp [translateElement, ht, hget, hlook]
      · by_cases htag : e.tagName = "INPUT" ∨ e.tagName = "TEXTAREA"
        · refine Or.inr (Or.inl ⟨t, ht, rfl, hne, htag, ?_, ?_⟩)
          · rcases htag with h | h <;> simp [Element.isAssigned, hget, hlook, h]
          · simp only [translateElement, ht, hget, hlook, hne, htag, if_true, if_false]
        · refine Or.inl ⟨t, ht, rfl, hne, htag, ?_, ?_⟩
          · have h1 : e.tagName ≠ "INPUT" := fun h => htag (Or.inl h)
            have h2 : e.tagName ≠ "TEXTAREA" := fun h => htag (Or.inr h)
            simp [Element.isAssigned, ht, hget, hlook, hne, h1, h2]
          · simp only [translateElement, ht, hget, hlook, hne, htag, if_true, if_false]
  · have hf : e.isTranslatable = false := by simpa using ht
    refine Or.inr (Or.inr ⟨Or.inl hf, ?_, ?_⟩)
    · simp [Element.isAssigned, hf]
    · simp [translateElement, hf]

theorem child?_translate (parse : String → String → Dom) (language : String) (d : Dom) :
    ∀ index, (d.translate parse language).child? index
      = (d.child? index).map (Element.translate parse language) := by
  induction d with
  | nil => intro index; rfl
  | text data next ih =>
    intro index
    simp only [Dom.translate, Dom.child?]
    exact ih index
  | elem tag attributes children next _ ih =>
    intro index
    cases index with
    | zero => rfl
    | succ index =>
      simp only [Dom.translate, Dom.child?]
      exact ih index

theorem descendant?_translate (parse : String → String → Dom) (language : String) :
    ∀ (path : List Nat) (root e : Element), root.descendant? path = some e →
      root.assignedAbove language path = false →
      (root.translate parse language).descendant? path = some (e.translate parse language) := by
  intro path
  induction path with
  | nil =>
    intro root e h _
    simp only [Element.descendant?, Option.some.injEq] at h
    subst h
    rfl
  | cons index rest ih =>
    intro root e h habove
    simp only [Element.assignedAbove, Bool.or_eq_false_iff] at habove
    obtain ⟨hroot, hchild⟩ := habove
    simp only [Element.descendant?] at h ⊢
    have hchildren : (root.translate parse language).children
        = root.children.translate parse language := by
      simp [Element.translate, hroot]
    rw [hchildren, child?_translate]
    cases hc : root.children.child? index with
    | none => rw [hc] at h; cases h
    | some child =>
      rw [hc] at h hchild
      exact ih child e h hchild

theorem elementAt?_translate (parse : String → String → Dom) (language : String) (d : Dom)
    (path : List Nat) (e : Element) (h : d.elementAt? path = some e)
    (habove : d.assignedAbove language path = false) :
    (d.translate parse language).elementAt? path = some (e.translate parse language) := by
  cases path with
  | nil => cases h
  | cons index rest =>
    simp only [Dom.elementAt?, Dom.assignedAbove] at h habove ⊢
    rw [child?_translate]
    cases hc : d.child? index with
    | none => rw [hc] at h; cases h
    | some child =>
      rw [hc] at h habove
      exact descendant?_translate parse language rest child e h habove

theorem translate_untranslatable (parse : String → String → Dom) (language : String) (d : Dom) :
    (∀ path e, d.elementAt? path = some e → e.isTranslatable = false) →
      d.translate parse language = d := by
  induction d with
  | nil => intro _; rfl
  | text data next ih =>
    intro h
    simp only [Dom.translate]
    rw [ih (fun path e hp => h path e (by
      cases path with
      | nil => cases hp
      | cons index rest => simpa [Dom.elementAt?, Dom.child?] using hp))]
  | elem tag attributes children next ihc ihn =>
    intro h
    have hself : Element.isTranslatable
        { localName := tag, attributes := attributes, children := children } = false :=
      h [0] _ rfl
    have hchildren : children.translate parse language = children := by
      apply ihc
      intro path e hp
      cases path with
      | nil => cases hp
      | cons index rest =>
        exact h (0 :: index :: rest) e (by
          simpa [Dom.elementAt?, Dom.child?, Element.descendant?] using hp)
    have hnext : next.translate parse language = next := by
      apply ihn
      intro path e hp
      cases path with
      | nil => cases hp
      | cons index rest =>
        exact h ((index + 1) :: rest) e (by simpa [Dom.elementAt?, Dom.child?] using hp)
    simp [Dom.translate, translateElement, Element.isAssigned, hself, hchildren, hnext]

theorem ownText_translate (parse : String → String → Dom) (language : String) (d : Dom) :
    (d.translate parse language).ownText = d.ownText := by
  induction d with
  | nil => rfl
  | text data next ih => simp only [Dom.translate, Dom.ownText, ih]
  | elem tag attributes children next _ ih => simp only [Dom.translate, Dom.ownText, ih]

/-- C6, as the code has it: for every page, every HTML parser and every
language `L` of `en`, `ar`, `applyLanguage(L)` is defined (it cannot throw).
Every element of the document that lies inside no element whose `innerHTML`
the call assigns keeps its place and its name. If it is translatable and its
`data-L` is non-empty, then as an `INPUT` or `TEXTAREA` it gets that value as
placeholder (other attributes kept, child nodes visited in turn), and
otherwise its child nodes are replaced by the nodes the HTML parser makes of
that value (attributes kept). If `data-L` is missing or empty, or the element
is not translatable, it keeps its attributes and its child nodes are visited
in turn. An element whose content is not replaced keeps its own text nodes.
With zero translatable elements the document is left as it was. -/
theorem applyLanguage_translates (parse : String → String → Dom) (p : Page) (language : String)
    (hL : language = "en" ∨ language = "ar") :
    (∀ (path : List Nat) (e : Element), p.body.elementAt? path = some e →
      p.body.assignedAbove language path = false →
      ∃ e', (applyLanguage parse language p).body.elementAt? path = some e' ∧
        e'.localName = e.localName ∧
        (e.isTranslatable = true →
          ∀ t, lookup ("data-" ++ language) e.attributes = some t → t ≠ "" →
            ((e.tagName = "INPUT" ∨ e.tagName = "TEXTAREA") →
              e'.placeholder = some t ∧
              (∀ name, name ≠ "placeholder" →
                lookup name e'.attributes = lookup name e.attributes) ∧
              e'.children = e.children.translate parse language) ∧
            (¬ (e.tagName = "INPUT" ∨ e.tagName = "TEXTAREA") →
              e'.attributes = e.attributes ∧ e'.children = parse e.localName t)) ∧
        (e.isTranslatable = true →
          (lookup ("data-" ++ language) e.attributes = none ∨
            lookup ("data-" ++ language) e.attributes = some "") →
          e'.attributes = e.attributes ∧ e'.children = e.children.translate parse language) ∧
        (e.isTranslatable = false →
          e'.attributes = e.attributes ∧ e'.children = e.children.translate parse language) ∧
        (e.isAssigned language = false → e'.children.ownText = e.children.ownText)) ∧
    ((∀ path e, p.body.elementAt? path = some e → e.isTranslatable = false) →
      (applyLanguage parse language p).body = p.body) := by
  refine ⟨?_, fun h => translate_untranslatable parse language p.body h⟩
  intro path e hat habove
  refine ⟨e.translate parse language, elementAt?_translate parse language p.body path e hat habove,
    rfl, ?_, ?_, ?_, ?_⟩
  · intro _ t hlook hne
    rcases translateElement_cases parse language hL e with
      ⟨t', _, hl, _, htag, hassigned, heq⟩ | ⟨t', _, hl, _, htag, hassigned, heq⟩ |
      ⟨hcase, _, _⟩
    · rw [hlook] at hl
      cases hl
      refine ⟨fun h => absurd h htag, fun _ => ?_⟩
      simp [Element.translate, hassigned, heq]
    · rw [hlook] at hl
      cases hl
      refine ⟨fun _ => ⟨?_, ?_, ?_⟩, fun h => absurd htag h⟩
      · simp [Element.translate, Element.placeholder, heq, Element.setAttribute, lookup_store_same]
      · intro name hname
        simp [Element.translate, heq, Element.setAttribute, lookup_store_other _ _ _ _ hname]
      · simp [Element.translate, hassigned]
    · rcases hcase with h | h | h
      · simp_all
      · rw [hlook] at h; cases h
      · rw [hlook] at h; cases h; exact absurd rfl hne
  · intro ht hlook
    rcases translateElement_cases parse language hL e with
      ⟨t', _, hl, hne, _, _, _⟩ | ⟨t', _, hl, hne, _, _, _⟩ | ⟨_, hassigned, heq⟩
    · rcases hlook with h | h
      · rw [h] at hl; cases hl
      · rw [h] at hl; cases hl; exact absurd rfl hne
    · rcases hlook with h | h
      · rw [h] at hl; cases hl
      · rw [h] at hl; cases hl; exact absurd rfl hne
    · simp [Element.translate, hassigned, heq]
  · intro hf
    rcases translateElement_cases parse language hL e with
      ⟨_, ht, _⟩ | ⟨_, ht, _⟩ | ⟨_, hassigned, heq⟩
    · rw [hf] at ht; cases ht
    · rw [hf] at ht; cases ht
    · simp [Element.translate, hassigned, heq]
  · intro hassigned
    simp [Element.translate, hassigned, ownText_translate]

/-- C6 fails as stated. With the text `<b>RD & GK</b>` in `data-en`, the
content of the item after `applyLanguage("en")` is not that value: the value
is read as markup, the item shows the text `RD & GK`, and its `innerHTML`
reads `<b>RD &amp; GK</b>`. And a translatable element whose attribute for the
language is empty is not left as it was when it lies inside a translatable
element that has a text for the language: the content of that element is
replaced, and the inner element is no longer in the document. -/
theorem applyLanguage_content_counterexample :
    parseHTML "<b>RD & GK</b>" = some (.elem "b" [] (.text "RD & GK" .nil) .nil) ∧
    (applyLanguage sampleParser "en" markupPage).body
      = .elem "li" [("data-en", "<b>RD & GK</b>"), ("data-ar", "RD و GK")]
          (.elem "b" [] (.text "RD & GK" .nil) .nil) .nil ∧
    ((applyLanguage sampleParser "en" markupPage).body.elementAt? [0]).map
        (fun e => e.children.textContent) = some "RD & GK" ∧
    ((applyLanguage sampleParser "en" markupPage).body.elementAt? [0]).map
        (fun e => e.children.innerHTML) = some "<b>RD &amp; GK</b>" ∧
    nestedPage.body.elementAt? [0, 0]
      = some { localName := "span", attributes := [("data-en", "RD1"), ("data-ar", "")],
               children := .text "RD1" .nil } ∧
    parseHTML "كوبيه" = some (.text "كوبيه" .nil) ∧
    (applyLanguage sampleParser "ar" nestedPage).body
      = .elem "div" [("data-en", "Coupe"), ("data-ar", "كوبيه")] (.text "كوبيه" .nil) .nil ∧
    (applyLanguage sampleParser "ar" nestedPage).body.elementAt? [0, 0] = none := by
  decide

/-- C6 amended, at a concrete input: Arabic applied to the sample page, and
what the theorem says of the element with the empty Arabic text, which lies in
a block that is not translatable. -/
theorem applyLanguage_translates_witness :
    ("ar" = "en" ∨ "ar" = "ar") ∧
    (applyLanguage sampleParser "ar" samplePage).body
      = .elem "h1" [("data-en", "History"), ("data-ar", "التاريخ")] (.text "التاريخ" .nil)
          (.elem "input" [("data-en", "Search"), ("data-ar", "بحث"), ("placeholder", "بحث")] .nil
            (.elem "div" [("class", "specs")]
              (.elem "span" [("data-en", "RD1"), ("data-ar", "")] (.text "RD1" .nil)
                (.elem "p" [("class", "lead")] (.text "1996" .nil) .nil))
              .nil)) ∧
    samplePage.body.assignedAbove "ar" [2, 0] = false ∧
    ∃ e', (applyLanguage sampleParser "ar" samplePage).body.elementAt? [2, 0] = some e' ∧
      e'.localName = "span" ∧ e'.attributes = [("data-en", "RD1"), ("data-ar", "")] ∧
      e'.children = (Dom.text "RD1" .nil).translate sampleParser "ar" ∧
      e'.children.ownText = ["RD1"] :=
  ⟨by decide, by decide, by decide,
    match (applyLanguage_translates sampleParser samplePage "ar" (by decide)).1 [2, 0]
        { localName := "span", attributes := [("data-en", "RD1"), ("data-ar", "")],
          children := .text "RD1" .nil } (by decide) (by decide) with
    | ⟨e', hat, hname, _, hempty, _, htext⟩ =>
      ⟨e', hat, hname, (hempty (by decide) (Or.inr (by decide))).1,
        (hempty (by decide) (Or.inr (by decide))).2, htext (by decide)⟩⟩

theorem translate_idem (parse : String → String → Dom) (language : String)
    (hL : language = "en" ∨ language = "ar") (d : Dom) :
    (d.translate parse language).translate parse language = d.translate parse language := by
  induction d with
  | nil => rfl
  | text data next ih => simp only [Dom.translate, ih]
  | elem tag attributes children next ihc ihn =>
    rcases translateElement_cases parse language hL
        { localName := tag, attributes := attributes, children := children } with
      ⟨t, ht, hl, hne, htag, hassigned, heq⟩ | ⟨t, ht, hl, hne, htag, hassigned, heq⟩ |
      ⟨hcase, hassigned, heq⟩
    · have h1 : Dom.translate parse language (.elem tag attributes children next)
          = .elem tag attributes (parse tag t) (next.translate parse language) := by
        simp only [Dom.translate, hassigned, heq, if_true]
      rcases translateElement_cases parse language hL
          { localName := tag, attributes := attributes, children := parse tag t } with
        ⟨t', _, hl', _, _, hassigned', heq'⟩ | ⟨t', _, _, _, htag', _, _⟩ | ⟨hcase', _, _⟩
      · have ht' : t' = t := by
          have := hl'.symm.trans hl
          exact Option.some.inj this
        subst ht'
        rw [h1]
        simp only [Dom.translate, hassigned', heq', if_true, ihn]
      · exact absurd htag' htag
      · rcases hcase' with h | h | h
        · rw [show Element.isTranslatable
              { localName := tag, attributes := attributes, children := parse tag t }
              = Element.isTranslatable
              { localName := tag, attributes := attributes, children := children } from rfl,
            ht] at h
          cases h
        · exact absurd (h.symm.trans hl) (by simp)
        · have := Option.some.inj (h.symm.trans hl)
          exact absurd this.symm hne
    · have h1 : Dom.translate parse language (.elem tag attributes children next)
          = .elem tag (store "placeholder" t attributes) (children.translate parse language)
              (next.translate parse language) := by
        simp only [Dom.translate, hassigned, heq, Element.setAttribute]
        simp
      have ht2 : Element.isTranslatable
          { localName := tag, attributes := store "placeholder" t attributes,
            children := children.translate parse language } = true := by
        have := isTranslatable_setPlaceholder
          { localName := tag, attributes := attributes, children := children } t
        simp only [Element.isTranslatable, Element.setAttribute] at this ht ⊢
        rw [this]
        exact ht
      have hl2 : lookup ("data-" ++ language) (store "placeholder" t attributes) = some t := by
        rw [lookup_data_placeholder language t hL]
        exact hl
      rcases translateElement_cases parse language hL
          { localName := tag, attributes := store "placeholder" t attributes,
            children := children.translate parse language } with
        ⟨t', _, _, _, htag', _, _⟩ | ⟨t', _, hl', _, _, hassigned', heq'⟩ | ⟨hcase', _, _⟩
      · exact absurd htag htag'
      · have ht' : t' = t := Option.some.inj (hl'.symm.trans hl2)
        subst ht'
        rw [h1]
        simp only [Dom.translate, hassigned', heq', Element.setAttribute, store_store_same, ihc,
          ihn]
        simp
      · rcases hcase' with h | h | h
        · rw [ht2] at h; cases h
        · exact absurd (h.symm.trans hl2) (by simp)
        · have := Option.some.inj (h.symm.trans hl2)
          exact absurd this.symm hne
    · have h1 : Dom.translate parse language (.elem tag attributes children next)
          = .elem tag attributes (children.translate parse language)
              (next.translate parse language) := by
        simp only [Dom.translate, hassigned, heq]
        simp
      rcases translateElement_cases parse language hL
          { localName := tag, attributes := attributes,
            children := children.translate parse language } with
        ⟨t', ht', hl', hne', _, _, _⟩ | ⟨t', ht', hl', hne', _, _, _⟩ |
        ⟨_, hassigned', heq'⟩
      · rcases hcase with h | h | h
        · rw [show Element.isTranslatable
              { localName := tag, attributes := attributes, children := children }
              = Element.isTranslatable
              { localName := tag, attributes := attributes,
                children := children.translate parse language } from rfl, ht'] at h
          cases h
        · exact absurd (h.symm.trans hl') (by simp)
        · have := Option.some.inj (h.symm.trans hl')
          exact absurd this.symm hne'
      · rcases hcase with h | h | h
        · rw [show Element.isTranslatable
              { localName := tag, attributes := attributes, children := children }
              = Element.isTranslatable
              { localName := tag, attributes := attributes,
                children := children.translate parse language } from rfl, ht'] at h
          cases h
        · exact absurd (h.symm.trans hl') (by simp)
        · have := Option.some.inj (h.symm.trans hl')
          exact absurd this.symm hne'
      · rw [h1]
        simp only [Dom.translate, hassigned', heq', ihc, ihn]
        simp

/-- C7: for every page, every HTML parser and every supported language `L`
(`en` or `ar`), `applyLanguage(L)` applied twice in succession leaves the same
document state (content and placeholder of every element, `lang`, `dir`,
toggle label, title, meta description) as applied once. -/
theorem applyLanguage_idempotent (parse : String → String → Dom) (p : Page) (language : String)
    (hL : language = "en" ∨ language = "ar") :
    applyLanguage parse language (applyLanguage parse language p)
      = applyLanguage parse language p := by
  have he := translate_idem parse language hL p.body
  cases h1 : p.langToggleSpan <;> cases h2 : p.metaDescription <;>
    simp [applyLanguage, h1, h2, he]

/-- C7 at a concrete input: Arabic applied twice to the sample page. -/
theorem applyLanguage_idempotent_witness :
    ("ar" = "en" ∨ "ar" = "ar") ∧
    applyLanguage sampleParser "ar" (applyLanguage sampleParser "ar" samplePage)
      = applyLanguage sampleParser "ar" samplePage :=
  ⟨by decide, applyLanguage_idempotent sampleParser samplePage "ar" (by decide)⟩

/-! ## First load -/

/-- C8: when the controller is constructed with no stored theme and no stored
language (on a page that has the image modal, so that `init` runs to its end),
construction completes; after it the current theme and `data-theme` are
`light`, the current language and `lang` are `en`, and `dir` is `ltr`. -/
theorem constructor_defaults (parse : String → String → Dom) (entries : List (String × String))
    (page : Page)
    (ht : lookup "hyundai-coupe-theme" entries = none)
    (hl : lookup "hyundai-coupe-language" entries = none)
    (hm : page.imageModal = true) :
    ∃ w, constructor parse (.available entries) page = .ok w ∧
      w.currentTheme = "light" ∧ w.page.dataTheme = some "light" ∧
      w.currentLanguage = "en" ∧ w.page.lang = some "en" ∧ w.page.dir = some "ltr" := by
  have hmodal : initializeImageModal
      (initializeLanguage parse (initializeTheme
        { currentLanguage := "en", currentTheme := "light",
          storage := .available entries, page := page })).page = .ok () := by
    simp [initializeImageModal, initializeLanguage, applyLanguage, initializeTheme, hm]
  have hc : constructor parse (.available entries) page
      = .ok (start (initializeLanguage parse (initializeTheme
      { currentLanguage := "en", currentTheme := "light",
        storage := .available entries, page := page }))) := by
    simp only [constructor, getStoredLanguage, getStoredTheme, Storage.getItem, ht, hl,
      orElse, init, hmodal]
  refine ⟨_, hc, ?_⟩
  simp [start, initializeLanguage, initializeTheme, applyLanguage]

/-- C8 at a concrete input: an empty storage and the sample page. -/
theorem constructor_defaults_witness :
    ∃ w, constructor sampleParser (.available []) samplePage = .ok w ∧
      w.currentTheme = "light" ∧ w.page.dataTheme = some "light" ∧
      w.currentLanguage = "en" ∧ w.page.lang = some "en" ∧ w.page.dir = some "ltr" :=
  constructor_defaults sampleParser [] samplePage rfl rfl rfl

/-! ## Search: blank query -/

theorem trim_blank (query : String) (h : ∀ c ∈ query.toList, isTrimmable c = true) :
    trim query = "" := by
  have h1 : query.toList.dropWhile isTrimmable = [] := List.dropWhile_eq_nil_iff.mpr h
  unfold trim
  rw [h1]
  rfl

theorem countClass_normalize (name : String) (d : Dom) :
    d.normalize.countClass name = d.countClass name := by
  induction d with
  | nil => rfl
  | text data next ih =>
    simp only [Dom.normalize]
    split
    · simpa [Dom.countClass] using ih
    · split
      · rename_i more rest h
        rw [h] at ih
        simpa [Dom.countClass] using ih
      · simpa [Dom.countClass] using ih
  | elem tag attributes children next ihc ihn =>
    simp [Dom.normalize, Dom.countClass, ihc, ihn]

theorem countClass_replaceHighlights (d : Dom) :
    d.replaceHighlights.1.countClass "search-highlight" = 0 := by
  induction d with
  | nil => rfl
  | text data next ih => simpa [Dom.replaceHighlights, Dom.countClass] using ih
  | elem tag attributes children next ihc ihn =>
    simp only [Dom.replaceHighlights]
    split
    · simpa [Dom.countClass] using ihn
    · rename_i h
      have hc : Dom.countClass "search-highlight"
          (if children.replaceHighlights.2 = true then children.replaceHighlights.1.normalize
           else children.replaceHighlights.1) = 0 := by
        split
        · rw [countClass_normalize]
          exact ihc
        · exact ihc
      simp only [Dom.countClass, if_neg h, hc, ihn]

theorem splitTokens_append (current token rest : List Char)
    (h : ∀ c ∈ token, isAsciiWhitespace c = false) :
    splitTokens current (token ++ rest) = splitTokens (current ++ token) rest := by
  induction token generalizing current with
  | nil => simp
  | cons c token ih =>
    have hc : isAsciiWhitespace c = false := h c (List.mem_cons_self _ _)
    have ht : ∀ d ∈ token, isAsciiWhitespace d = false :=
      fun d hd => h d (List.mem_cons_of_mem _ hd)
    rw [List.cons_append, splitTokens, hc, if_neg (by simp), ih _ ht]
    simp

theorem splitTokens_isToken (current input : List Char)
    (h : ∀ c ∈ current, isAsciiWhitespace c = false) :
    ∀ t ∈ splitTokens current input, IsToken t := by
  induction input generalizing current with
  | nil =>
    intro t ht
    simp only [splitTokens] at ht
    split at ht
    · simp at ht
    · rename_i hne
      simp only [List.mem_singleton] at ht
      subst ht
      exact ⟨by simpa using hne, h⟩
  | cons c input ih =>
    intro t ht
    simp only [splitTokens] at ht
    split at ht
    · split at ht
      · exact ih [] (by simp) t ht
      · rename_i hne
        rcases List.mem_cons.mp ht with rfl | ht
        · exact ⟨by simpa using hne, h⟩
        · exact ih [] (by simp) t ht
    · rename_i hc
      refine ih (current ++ [c]) ?_ t ht
      intro d hd
      rcases List.mem_append.mp hd with hd | hd
      · exact h d hd
      · simp only [List.mem_singleton] at hd
        subst hd
        simpa using hc

theorem splitTokens_joinTokens (tokens : List (List Char)) (h : ∀ t ∈ tokens, IsToken t) :
    splitTokens [] (joinTokens tokens) = tokens := by
  induction tokens with
  | nil => rfl
  | cons t rest ih =>
    have ht : IsToken t := h t (List.mem_cons_self _ _)
    cases rest with
    | nil =>
      have := splitTokens_append [] t [] ht.2
      simp only [List.append_nil, List.nil_append] at this
      simp only [joinTokens, this, splitTokens]
      have hne : t.isEmpty = false := by
        cases t with
        | nil => exact absurd rfl ht.1
        | cons _ _ => rfl
      simp [hne]
    | cons u rest =>
      have hrest : ∀ v ∈ u :: rest, IsToken v := fun v hv => h v (List.mem_cons_of_mem _ hv)
      have := splitTokens_append [] t (' ' :: joinTokens (u :: rest)) ht.2
      simp only [List.nil_append] at this
      have hne : t.isEmpty = false := by
        cases t with
        | nil => exact absurd rfl ht.1
        | cons _ _ => rfl
      have hsp : isAsciiWhitespace ' ' = true := by decide
      simp only [joinTokens, this, splitTokens, hsp, if_true, hne, ih hrest]
      simp

theorem mem_dedupTokens (t : List Char) (tokens : List (List Char)) :
    t ∈ dedupTokens tokens ↔ t ∈ tokens := by
  induction tokens with
  | nil => simp [dedupTokens]
  | cons u rest ih =>
    simp only [dedupTokens, List.mem_cons, List.mem_filter, ih]
    constructor
    · rintro (h | ⟨h, _⟩)
      · exact Or.inl h
      · exact Or.inr h
    · intro h
      by_cases htu : t = u
      · exact Or.inl htu
      · rcases h with h | h
        · exact Or.inl h
        · exact Or.inr ⟨h, by simpa using htu⟩

theorem classTokens_isToken (attributes : List (String × String)) :
    ∀ t ∈ classTokens attributes, IsToken t := by
  intro t ht
  unfold classTokens at ht
  split at ht
  · simp at ht
  · exact splitTokens_isToken [] _ (by simp) t ((mem_dedupTokens _ _).mp ht)

theorem hasClass_removeClass (name removed : String) (attributes : List (String × String)) :
    hasClass name (removeClass removed attributes)
      = (name.toList != removed.toList && hasClass name attributes) := by
  have hgood : ∀ t ∈ (classTokens attributes).filter (fun t => t != removed.toList), IsToken t :=
    fun t ht => classTokens_isToken attributes t (List.mem_of_mem_filter ht)
  have hct : classTokens (removeClass removed attributes)
      = dedupTokens ((classTokens attributes).filter (fun t => t != removed.toList)) := by
    have hl : lookup "class" (removeClass removed attributes)
        = some (String.mk (joinTokens
            ((classTokens attributes).filter (fun t => t != removed.toList)))) := by
      simp [removeClass, lookup_store_same]
    show (match lookup "class" (removeClass removed attributes) with
      | none => []
      | some value => dedupTokens (splitTokens [] value.toList)) = _
    rw [hl]
    show dedupTokens (splitTokens [] (joinTokens
      ((classTokens attributes).filter (fun t => t != removed.toList)))) = _
    rw [splitTokens_joinTokens _ hgood]
  rw [Bool.eq_iff_iff]
  simp only [hasClass, hct, List.contains, List.elem_iff, mem_dedupTokens, List.mem_filter,
    Bool.and_eq_true, bne_iff_ne, ne_eq]
  tauto

theorem countClass_unmarkResults_highlight (d : Dom) :
    d.unmarkResults.countClass "search-highlight" = d.countClass "search-highlight" := by
  induction d with
  | nil => rfl
  | text data next ih => simpa [Dom.unmarkResults, Dom.countClass] using ih
  | elem tag attributes children next ihc ihn =>
    simp only [Dom.unmarkResults, Dom.countClass, ihc, ihn]
    split
    · rw [hasClass_removeClass]
      have : ("search-highlight".toList != "search-result".toList) = true := by decide
      simp [this]
    · rfl

theorem countClass_unmarkResults_result (d : Dom) :
    d.unmarkResults.countClass "search-result" = 0 := by
  induction d with
  | nil => rfl
  | text data next ih => simpa [Dom.unmarkResults, Dom.countClass] using ih
  | elem tag attributes children next ihc ihn =>
    simp only [Dom.unmarkResults, Dom.countClass, ihc, ihn]
    split
    · rw [hasClass_removeClass]
      simp
    · rename_i h
      simp [h]

theorem clear_highlighted (item : SpecItem) :
    item.clear.children.countClass "search-highlight" = 0 := by
  simp only [SpecItem.clear, countClass_unmarkResults_highlight]
  split
  · rw [countClass_normalize, countClass_replaceHighlights]
  · exact countClass_replaceHighlights _

theorem sum_map_zero {α : Type} (f : α → Nat) (l : List α) (h : ∀ a ∈ l, f a = 0) :
    (l.map f).sum = 0 := by
  induction l with
  | nil => rfl
  | cons a rest ih =>
    simp [h a (List.mem_cons_self _ _), ih (fun b hb => h b (List.mem_cons_of_mem _ hb))]

/-- C9: for every page state, highlights included, and every query that is
empty or made of white space only, `performSearch` completes and leaves no
`.search-highlight` element and no `.search-result` element; it writes nothing
to the console, so no count is reported. -/
theorem performSearch_blank (s : SearchPage) (query : String)
    (hq : ∀ c ∈ query.toList, isTrimmable c = true) :
    ∃ s', performSearch query s = .ok s' ∧
      s'.highlighted = 0 ∧ s'.results = 0 ∧ s'.console = s.console := by
  refine ⟨clearSearchHighlights s, by simp [performSearch, trim_blank query hq], ?_, ?_, rfl⟩
  · simp only [SearchPage.highlighted, clearSearchHighlights, List.map_map]
    apply sum_map_zero
    intro item _
    exact clear_highlighted item
  · simp only [SearchPage.results, clearSearchHighlights, List.map_map]
    apply sum_map_zero
    intro item _
    simp [SpecItem.clear, countClass_unmarkResults_result]

/-- C9 at a concrete input: a query of two spaces and a tab on the page a
search for `2.0` left behind. -/
theorem performSearch_blank_witness :
    (∀ c ∈ "  \t".toList, isTrimmable c = true) ∧
    searchedPage.highlighted = 2 ∧ searchedPage.results = 1 ∧
    ∃ s', performSearch "  \t" searchedPage = .ok s' ∧
      s'.highlighted = 0 ∧ s'.results = 0 ∧ s'.console = searchedPage.console :=
  ⟨by decide, by decide, by decide, performSearch_blank searchedPage "  \t" (by decide)⟩

/-! ## Search: a query with a pattern character -/

/-- C10 at the query `2.0` on the items `2.0L 250` and `1.6L`: the search
completes, marks the first item only and reports one result, but the first
item, whose text holds one occurrence of `2.0`, gets two highlight markers:
the second wraps `250`, in which `2.0` does not occur, because `.` of the
query is read as a pattern character. -/
theorem performSearch_wraps_non_occurrence :
    performSearch "2.0" engineItems = .ok searchedPage ∧
    searchedPage.items.map (fun item => item.searchResult) = [true, false] ∧
    searchedPage.items.map (fun item => item.children.countClass "search-highlight") = [2, 0] ∧
    countOccurrences "2.0".toList 0 "2.0L 250".toList = 1 ∧
    includes "250" "2.0" = false := by
  decide

/-! ## Search: repeated and reversed -/

/-- C11 at the query `&` on the item `R&D`: both runs complete, yet the second
does not leave what the first left. The pattern is applied to the serialised
markup `R&amp;D`, so the first run leaves `R`, the marker around `&`, and the
text `amp;D`; the second run starts from the text `R&amp;D` and leaves
`amp;amp;D` after the marker. -/
theorem performSearchTwice_differs :
    performSearch "&" ampersandPage = .ok
      { items := [ { searchResult := true
                     children := .text "R" (.elem "mark" [("class", "search-highlight")]
                       (.text "&" .nil) (.text "amp;D" .nil)) } ]
        console := ["Found 1 results for \"&\""] } ∧
    performSearchTwice "&" ampersandPage = .ok
      { items := [ { searchResult := true
                     children := .text "R" (.elem "mark" [("class", "search-highlight")]
                       (.text "&" .nil) (.text "amp;amp;D" .nil)) } ]
        console := ["Found 1 results for \"&\"", "Found 1 results for \"&\""] } ∧
    (performSearch "&" ampersandPage).toOption.map (fun s => s.items)
      ≠ (performSearchTwice "&" ampersandPage).toOption.map (fun s => s.items) := by
  decide

/-- C12 at an item whose text `Engine 2.0L` holds `2.0L` with `0L` set as
subscript: the item's text includes the query, so the search marks the item as
a result and reports a count of one; but the pattern is applied to the markup
`Engine 2.<sub>0L</sub>`, in which it matches nowhere, and nothing is
highlighted. -/
theorem performSearch_litre_across_markup :
    subscriptPage.items.map (fun item => item.children.textContent) = ["Engine 2.0L"] ∧
    subscriptPage.items.map (fun item => item.children.innerHTML) = ["Engine 2.<sub>0L</sub>"] ∧
    includes (toLowerCase "Engine 2.0L") "2.0" = true ∧
    performSearch "2.0" subscriptPage = .ok
      { items := [ { searchResult := true
                     children := .text "Engine 2." (.elem "sub" [] (.text "0L" .nil) .nil) } ]
        console := ["Found 1 results for \"2.0\""] } ∧
    (performSearch "2.0" subscriptPage).toOption.map (fun s => s.highlighted) = some 0 := by
  decide

/-- The query `2.0` on the sample item `Engine 2.0L`: the search completes,
marks the item as a result, reports a count of one, and wraps the occurrence
`2.0` in a highlight marker. -/
theorem performSearch_litre_sample :
    performSearch "2.0" litrePage = .ok
      { items := [ { searchResult := true
                     children := .text "Engine " (.elem "mark" [("class", "search-highlight")]
                       (.text "2.0" .nil) (.text "L" .nil)) } ]
        console := ["Found 1 results for \"2.0\""] } := by
  decide

/-- C13 at the queries `(` and `*`: on an item whose text holds the query,
`new RegExp` is given the patterns `(()` and `(*)` and throws a `SyntaxError`,
which `performSearch` lets through. -/
theorem performSearch_throws_on_pattern_syntax :
    performSearch "(" parenthesisPage = .error (.throws .syntaxError) ∧
    performSearch "*" { items := [plainItem "a*b"], console := [] }
      = .error (.throws .syntaxError) := by
  decide

/-- C19 at the query `&` on the item `R&D`, which has no highlight: the search
changes the visible text of the item to `R&amp;D`, and neither
`clearSearchHighlights` nor `performSearch("")` brings the item back to its
original content. -/
theorem performSearch_not_reversible :
    ampersandPage.highlighted = 0 ∧
    ampersandPage.items.map (fun item => item.children.textContent) = ["R&D"] ∧
    (performSearch "&" ampersandPage).toOption.map
        (fun s => s.items.map (fun item => item.children.textContent)) = some ["R&amp;D"] ∧
    (performSearch "&" ampersandPage).toOption.map (fun s => (clearSearchHighlights s).items)
      = some [plainItem "R&amp;D"] ∧
    ((performSearch "&" ampersandPage).toOption.map
        (fun s => (performSearch "" s).toOption.map (fun s' => s'.items)))
      = some (some [plainItem "R&amp;D"]) ∧
    plainItem "R&amp;D" ≠ plainItem "R&D" := by
  decide

/-! ## Missing targets -/

/-- C17 at pages that lack a target: without `#mainNavbar` `handleScroll`
throws a `TypeError`, without `#imageModal` `initializeImageModal` does, without
`#modalImage` the click and key listeners of the gallery do, and without
`.navbar` the smooth-scroll click listener does when the link target exists.
The three guarded look-ups do as the claim says: without the theme icon
`updateThemeIcon` changes nothing, and `applyLanguage` leaves an absent toggle
label and an absent meta description absent. -/
theorem missing_target_throws (scrollY : ℚ) (offsetTop : Int) (resolve : String → String)
    (img : GalleryImage) (images : List GalleryImage) (w : World)
    (parse : String → String → Dom) (language : String) (p : Page) :
    handleScroll none scrollY = .error .typeError ∧
    initializeImageModal { barePage with imageModal := false } = .error .typeError ∧
    galleryClick resolve img { images := images, modalImage := none } = .error .typeError ∧
    modalKeydown resolve "ArrowRight" { images := images, modalImage := none }
      = .error .typeError ∧
    smoothScrollClick (some offsetTop) none = .error .typeError ∧
    (w.page.themeIcon = none → updateThemeIcon w = w) ∧
    (p.langToggleSpan = none → (applyLanguage parse language p).langToggleSpan = none) ∧
    (p.metaDescription = none → (applyLanguage parse language p).metaDescription = none) := by
  refine ⟨rfl, rfl, rfl, ?_, rfl, ?_, ?_, ?_⟩
  · simp [modalKeydown]
  · intro h
    simp [updateThemeIcon, h]
  · intro h
    simp [applyLanguage, h]
  · intro h
    simp [applyLanguage, h]

/-! ## Sequences of toggles -/

theorem otherTheme_token (theme : String) :
    otherTheme theme = "light" ∨ otherTheme theme = "dark" := by
  unfold otherTheme
  split
  · exact Or.inr rfl
  · exact Or.inl rfl

theorem otherLanguage_token (language : String) :
    otherLanguage language = "en" ∨ otherLanguage language = "ar" := by
  unfold otherLanguage
  split
  · exact Or.inr rfl
  · exact Or.inl rfl

theorem constructor_fields (parse : String → String → Dom) (entries : List (String × String))
    (page : Page) (w0 : World)
    (hc : constructor parse (.available entries) page = .ok w0) :
    w0.storage = .available entries ∧
    w0.currentTheme = orElse (lookup "hyundai-coupe-theme" entries) "light" ∧
    w0.currentLanguage = orElse (lookup "hyundai-coupe-language" entries) "en" := by
  simp only [constructor, getStoredLanguage, getStoredTheme, Storage.getItem, init] at hc
  split at hc
  · simp at hc
  · simp only [Except.ok.injEq] at hc
    subst hc
    simp [start, initializeLanguage, initializeTheme]

theorem runToggles_spec (parse : String → String → Dom) (toggles : List Toggle) :
    ∀ (w : World) (entries : List (String × String)), w.storage = .available entries →
    ∃ w' entries', runToggles parse toggles w = .ok w' ∧ w'.storage = .available entries' ∧
      (Toggle.theme ∈ toggles →
        (w'.currentTheme = "light" ∨ w'.currentTheme = "dark") ∧
        lookup "hyundai-coupe-theme" entries' = some w'.currentTheme) ∧
      (Toggle.theme ∉ toggles →
        w'.currentTheme = w.currentTheme ∧
        lookup "hyundai-coupe-theme" entries' = lookup "hyundai-coupe-theme" entries) ∧
      (Toggle.language ∈ toggles →
        (w'.currentLanguage = "en" ∨ w'.currentLanguage = "ar") ∧
        lookup "hyundai-coupe-language" entries' = some w'.currentLanguage) ∧
      (Toggle.language ∉ toggles →
        w'.currentLanguage = w.currentLanguage ∧
        lookup "hyundai-coupe-language" entries' = lookup "hyundai-coupe-language" entries) := by
  induction toggles with
  | nil =>
    intro w entries hs
    exact ⟨w, entries, rfl, hs, by simp, by simp, by simp, by simp⟩
  | cons t rest ih =>
    intro w entries hs
    cases t with
    | theme =>
      have h1 := toggleTheme_available w entries hs
      obtain ⟨w', entries', hrun, hs', hT, hnT, hL, hnL⟩ := ih _ _
        (show (updateThemeIcon
          { w with currentTheme := otherTheme w.currentTheme
                   storage := .available
                     (store "hyundai-coupe-theme" (otherTheme w.currentTheme) entries)
                   page := { w.page with dataTheme := some (otherTheme w.currentTheme) } }).storage
          = .available (store "hyundai-coupe-theme" (otherTheme w.currentTheme) entries) by simp)
      refine ⟨w', entries', by simp only [runToggles, h1]; exact hrun, hs', ?_, ?_, ?_, ?_⟩
      · intro _
        by_cases hin : Toggle.theme ∈ rest
        · exact hT hin
        · obtain ⟨hth, hlook⟩ := hnT hin
          simp only [updateThemeIcon_currentTheme] at hth
          refine ⟨by rw [hth]; exact otherTheme_token _, ?_⟩
          rw [hlook, lookup_store_same, hth]
      · intro hnot
        exact absurd (List.mem_cons_self _ _) hnot
      · intro hin
        have hin' : Toggle.language ∈ rest := by
          rcases List.mem_cons.mp hin with h | h
          · cases h
          · exact h
        exact hL hin'
      · intro hnot
        have hnot' : Toggle.language ∉ rest := fun h => hnot (List.mem_cons_of_mem _ h)
        obtain ⟨hl, hlook⟩ := hnL hnot'
        simp only [updateThemeIcon_currentLanguage] at hl
        refine ⟨hl, ?_⟩
        rw [hlook]
        exact lookup_store_other _ _ _ _ (by decide)
    | language =>
      have h1 := toggleLanguage_available parse w entries hs
      obtain ⟨w', entries', hrun, hs', hT, hnT, hL, hnL⟩ := ih
        { w with currentLanguage := otherLanguage w.currentLanguage
                 storage := .available
                   (store "hyundai-coupe-language" (otherLanguage w.currentLanguage) entries)
                 page := applyLanguage parse (otherLanguage w.currentLanguage) w.page }
        (store "hyundai-coupe-language" (otherLanguage w.currentLanguage) entries) rfl
      refine ⟨w', entries', by simp only [runToggles, h1]; exact hrun, hs', ?_, ?_, ?_, ?_⟩
      · intro hin
        have hin' : Toggle.theme ∈ rest := by
          rcases List.mem_cons.mp hin with h | h
          · cases h
          · exact h
        exact hT hin'
      · intro hnot
        have hnot' : Toggle.theme ∉ rest := fun h => hnot (List.mem_cons_of_mem _ h)
        obtain ⟨hth, hlook⟩ := hnT hnot'
        refine ⟨hth, ?_⟩
        rw [hlook]
        exact lookup_store_other _ _ _ _ (by decide)
      · intro _
        by_cases hin : Toggle.language ∈ rest
        · exact hL hin
        · obtain ⟨hl, hlook⟩ := hnL hin
          refine ⟨by rw [hl]; exact otherLanguage_token _, ?_⟩
          rw [hlook, lookup_store_same, hl]
      · intro hnot
        exact absurd (List.mem_cons_self _ _) hnot

/-- C18 fails as stated: with `blue` stored as theme and `fr` as language the
constructor takes both over as they are, so that before the first toggle the
current theme is none of `light`, `dark` and the current language none of
`en`, `ar`. -/
theorem stored_values_taken_over_counterexample :
    ∃ w0, constructor sampleParser
        (.available [("hyundai-coupe-theme", "blue"), ("hyundai-coupe-language", "fr")])
        barePage = .ok w0 ∧
      runToggles sampleParser [] w0 = .ok w0 ∧
      w0.currentTheme = "blue" ∧ w0.currentLanguage = "fr" ∧
      ¬ (w0.currentTheme = "light" ∨ w0.currentTheme = "dark") ∧
      ¬ (w0.currentLanguage = "en" ∨ w0.currentLanguage = "ar") := by
  refine ⟨_, rfl, rfl, by decide, by decide, by decide, by decide⟩

/-- C18, as the code has it: after construction on an available storage every
sequence of toggles completes; a toggle writes under its key the value it
makes current, which is `light` or `dark` for `toggleTheme` and `en` or `ar`
for `toggleLanguage`, and a key no toggle wrote keeps its entry. The current
theme is one of `light`, `dark` once `toggleTheme` has been called, and from
the start when the getter found one of them (stored, or as the fallback);
likewise the current language with `en`, `ar`. -/
theorem toggles_keep_tokens (parse : String → String → Dom) (entries : List (String × String))
    (page : Page) (w0 : World) (toggles : List Toggle)
    (hc : constructor parse (.available entries) page = .ok w0) :
    ∃ w entries', runToggles parse toggles w0 = .ok w ∧ w.storage = .available entries' ∧
      (Toggle.theme ∈ toggles →
        (w.currentTheme = "light" ∨ w.currentTheme = "dark") ∧
        lookup "hyundai-coupe-theme" entries' = some w.currentTheme) ∧
      (Toggle.theme ∉ toggles →
        lookup "hyundai-coupe-theme" entries' = lookup "hyundai-coupe-theme" entries) ∧
      (Toggle.language ∈ toggles →
        (w.currentLanguage = "en" ∨ w.currentLanguage = "ar") ∧
        lookup "hyundai-coupe-language" entries' = some w.currentLanguage) ∧
      (Toggle.language ∉ toggles →
        lookup "hyundai-coupe-language" entries' = lookup "hyundai-coupe-language" entries) ∧
      ((getStoredTheme (.available entries) = .ok "light" ∨
          getStoredTheme (.available entries) = .ok "dark") →
        (w.currentTheme = "light" ∨ w.currentTheme = "dark")) ∧
      ((getStoredLanguage (.available entries) = .ok "en" ∨
          getStoredLanguage (.available entries) = .ok "ar") →
        (w.currentLanguage = "en" ∨ w.currentLanguage = "ar")) := by
  obtain ⟨hs0, ht0, hl0⟩ := constructor_fields parse entries page w0 hc
  obtain ⟨w, entries', hrun, hs, hT, hnT, hL, hnL⟩ :=
    runToggles_spec parse toggles w0 entries hs0
  refine ⟨w, entries', hrun, hs, hT, fun h => (hnT h).2, hL, fun h => (hnL h).2, ?_, ?_⟩
  · intro hstored
    by_cases hin : Toggle.theme ∈ toggles
    · exact (hT hin).1
    · rw [(hnT hin).1, ht0]
      simpa [getStoredTheme, Storage.getItem] using hstored
  · intro hstored
    by_cases hin : Toggle.language ∈ toggles
    · exact (hL hin).1
    · rw [(hnL hin).1, hl0]
      simpa [getStoredLanguage, Storage.getItem] using hstored

/-- C18 amended, at a concrete input: the bare page with `blue` stored as theme,
and the calls `toggleTheme`, `toggleLanguage`, `toggleTheme`. -/
theorem toggles_keep_tokens_witness :
    constructor sampleParser (.available [("hyundai-coupe-theme", "blue")]) barePage = .ok blueVisit ∧
    ∃ w entries', runToggles sampleParser [.theme, .language, .theme] blueVisit = .ok w ∧
      w.storage = .available entries' ∧
      (Toggle.theme ∈ [Toggle.theme, .language, .theme] →
        (w.currentTheme = "light" ∨ w.currentTheme = "dark") ∧
        lookup "hyundai-coupe-theme" entries' = some w.currentTheme) ∧
      (Toggle.theme ∉ [Toggle.theme, .language, .theme] →
        lookup "hyundai-coupe-theme" entries'
          = lookup "hyundai-coupe-theme" [("hyundai-coupe-theme", "blue")]) ∧
      (Toggle.language ∈ [Toggle.theme, .language, .theme] →
        (w.currentLanguage = "en" ∨ w.currentLanguage = "ar") ∧
        lookup "hyundai-coupe-language" entries' = some w.currentLanguage) ∧
      (Toggle.language ∉ [Toggle.theme, .language, .theme] →
        lookup "hyundai-coupe-language" entries'
          = lookup "hyundai-coupe-language" [("hyundai-coupe-theme", "blue")]) ∧
      ((getStoredTheme (.available [("hyundai-coupe-theme", "blue")]) = .ok "light" ∨
          getStoredTheme (.available [("hyundai-coupe-theme", "blue")]) = .ok "dark") →
        (w.currentTheme = "light" ∨ w.currentTheme = "dark")) ∧
      ((getStoredLanguage (.available [("hyundai-coupe-theme", "blue")]) = .ok "en" ∨
          getStoredLanguage (.available [("hyundai-coupe-theme", "blue")]) = .ok "ar") →
        (w.currentLanguage = "en" ∨ w.currentLanguage = "ar")) :=
  ⟨by decide,
   toggles_keep_tokens sampleParser [("hyundai-coupe-theme", "blue")] barePage blueVisit
     [.theme, .language, .theme] (by decide)⟩

/-! ## Timeline -/

theorem activeSection_cases (p : ScrollPage) :
    p.activeSection = none ∨ ∃ id, p.activeSection = some id := by
  cases h : p.activeSection with
  | none => exact Or.inl rfl
  | some id => exact Or.inr ⟨id, rfl⟩

theorem visitSection_none (p : ScrollPage) (id : String)
    (h : ∀ s, p.getElementById id = some s → p.inSection s = false) :
    p.visitSection none id = none := by
  unfold ScrollPage.visitSection
  split
  · rfl
  · rename_i s hs
    simp [h s hs]

theorem activeSection_none (p : ScrollPage)
    (h : ∀ id ∈ trackedSections, ∀ s, p.getElementById id = some s → p.inSection s = false) :
    p.activeSection = none := by
  simp only [ScrollPage.activeSection, trackedSections, List.foldl]
  rw [visitSection_none p "rd1" (h "rd1" (by decide)),
    visitSection_none p "rd2" (h "rd2" (by decide)),
    visitSection_none p "gk1" (h "gk1" (by decide)),
    visitSection_none p "gk2" (h "gk2" (by decide))]

theorem active_target_le_one (target : String) (items : List TimelineItem)
    (hd : (items.filterMap (fun item => item.href)).Nodup) :
    ((items.map (fun item =>
        ({ item with active := decide (item.href = some target) } : TimelineItem))).filter
      (fun item => item.active)).length ≤ 1 := by
  induction items with
  | nil => simp
  | cons a rest ih =>
    cases ha : a.href with
    | none =>
      have hd' : (rest.filterMap (fun item => item.href)).Nodup := by
        simpa [List.filterMap_cons, ha] using hd
      simpa [ha] using ih hd'
    | some h =>
      have hd' : h ∉ rest.filterMap (fun item => item.href) ∧
          (rest.filterMap (fun item => item.href)).Nodup := by
        simpa [List.filterMap_cons, ha] using hd
      by_cases ht : h = target
      · subst ht
        have hnone : (rest.map (fun item =>
            ({ item with active := decide (item.href = some h) } : TimelineItem))).filter
            (fun item => item.active) = [] := by
          rw [List.filter_eq_nil_iff]
          intro item hitem
          obtain ⟨b, hb, rfl⟩ := List.mem_map.mp hitem
          simp only [decide_eq_true_eq]
          intro hbh
          exact hd'.1 (List.mem_filterMap.mpr ⟨b, hb, hbh⟩)
        simp [ha, hnone]
      · have := ih hd'.2
        simpa [ha, ht] using this

theorem activeItems_none (p : ScrollPage) (items : List TimelineItem)
    (ht : p.timeline = some items) (hn : p.activeSection = none) :
    (updateActiveTimelineItem p).activeItems = [] := by
  simp [ScrollPage.activeItems, updateActiveTimelineItem, ht, hn]

/-- C16: after every call of `updateActiveTimelineItem` on a timeline whose
items have distinct link targets (as the four built by `addTimelineNavigation`
have), at most one timeline item is marked active; and when the scroll
reference position lies in no tracked section, in particular when it lies
above all of them, no timeline item is marked active, whatever was marked
before the call. -/
theorem updateActiveTimelineItem_marks (p : ScrollPage)
    (hd : ((p.timeline.getD []).filterMap (fun item => item.href)).Nodup) :
    (updateActiveTimelineItem p).activeItems.length ≤ 1 ∧
    ((∀ id ∈ trackedSections, ∀ s, p.getElementById id = some s → p.inSection s = false) →
      (updateActiveTimelineItem p).activeItems = []) ∧
    ((∀ id ∈ trackedSections, ∀ s, p.getElementById id = some s →
        p.scrollPosition < s.offsetTop) →
      (updateActiveTimelineItem p).activeItems = []) := by
  cases ht : p.timeline with
  | none =>
    simp [ScrollPage.activeItems, updateActiveTimelineItem, ht]
  | some items =>
    have hnone : (∀ id ∈ trackedSections, ∀ s, p.getElementById id = some s →
        p.inSection s = false) → (updateActiveTimelineItem p).activeItems = [] :=
      fun h => activeItems_none p items ht (activeSection_none p h)
    refine ⟨?_, hnone, ?_⟩
    · rcases activeSection_cases p with hn | ⟨id, hid⟩
      · simp [activeItems_none p items ht hn]
      · have hd' : (items.filterMap (fun item => item.href)).Nodup := by
          simpa [ht] using hd
        have := active_target_le_one ("#" ++ id) items hd'
        simpa [ScrollPage.activeItems, updateActiveTimelineItem, ht, hid] using this
    · intro habove
      apply hnone
      intro id hid s hs
      have := habove id hid s hs
      simp only [ScrollPage.inSection, Bool.and_eq_false_imp, decide_eq_true_eq, decide_eq_false_iff_not]
      intro hge
      exact absurd hge (not_le.mpr this)

/-- C16 at a concrete input: the built timeline with two items marked active,
the sections `rd1` at 600 and `rd2` at 1400, and the position 400 above both. -/
theorem updateActiveTimelineItem_marks_witness :
    (((abovePage.timeline.getD []).filterMap (fun item => item.href)).Nodup) ∧
    abovePage.activeItems.length = 2 ∧
    (updateActiveTimelineItem abovePage).activeItems = [] ∧
    (updateActiveTimelineItem abovePage).activeItems.length ≤ 1 :=
  ⟨by decide, by decide,
   (updateActiveTimelineItem_marks abovePage (by decide)).2.2 (by
      intro id hid s hs
      simp only [trackedSections, List.mem_cons, List.mem_singleton, List.not_mem_nil,
        or_false] at hid
      rcases hid with rfl | rfl | rfl | rfl <;>
        simp [ScrollPage.getElementById, abovePage] at hs <;>
        subst hs <;>
        norm_num [ScrollPage.scrollPosition, abovePage]),
   (updateActiveTimelineItem_marks abovePage (by decide)).1⟩

theorem visitSection_hit (p : ScrollPage) (current : Option String) (id : String) (s : Section)
    (hs : p.getElementById id = some s) (hin : p.inSection s = true) :
    p.visitSection current id = some id := by
  simp [ScrollPage.visitSection, hs, hin]

theorem visitSection_miss (p : ScrollPage) (current : Option String) (id : String)
    (h : ∀ s, p.getElementById id = some s → p.inSection s = false) :
    p.visitSection current id = current := by
  unfold ScrollPage.visitSection
  split
  · rfl
  · rename_i s hs
    simp [h s hs]

theorem inSection_at_top (p : ScrollPage) (s : Section)
    (hpos : p.scrollPosition = s.offsetTop) (hh : 0 < s.offsetHeight) : p.inSection s = true := by
  have hq : (0 : ℚ) < (s.offsetHeight : ℚ) := by exact_mod_cast hh
  simp only [ScrollPage.inSection, hpos, Bool.and_eq_true, decide_eq_true_eq]
  constructor
  · exact le_refl _
  · linarith

theorem activeSection_at_top (p : ScrollPage) (id : String) (s : Section)
    (hid : id ∈ trackedSections) (hs : p.getElementById id = some s)
    (hpos : p.scrollPosition = s.offsetTop) (hh : 0 < s.offsetHeight)
    (hlater : ∀ other ∈ sectionsAfter id, ∀ t, p.getElementById other = some t →
      p.inSection t = false) :
    p.activeSection = some id := by
  have hin := inSection_at_top p s hpos hh
  simp only [trackedSections, List.mem_cons, List.mem_singleton, List.not_mem_nil,
    or_false] at hid
  simp only [ScrollPage.activeSection, trackedSections, List.foldl]
  rcases hid with rfl | rfl | rfl | rfl
  · rw [visitSection_hit p _ "rd1" s hs hin,
      visitSection_miss p _ "rd2" (hlater "rd2" (by decide)),
      visitSection_miss p _ "gk1" (hlater "gk1" (by decide)),
      visitSection_miss p _ "gk2" (hlater "gk2" (by decide))]
  · rw [visitSection_hit p _ "rd2" s hs hin,
      visitSection_miss p _ "gk1" (hlater "gk1" (by decide)),
      visitSection_miss p _ "gk2" (hlater "gk2" (by decide))]
  · rw [visitSection_hit p _ "gk1" s hs hin,
      visitSection_miss p _ "gk2" (hlater "gk2" (by decide))]
  · rw [visitSection_hit p _ "gk2" s hs hin]

theorem updateActiveTimelineItem_timeline (p : ScrollPage) (items : List TimelineItem)
    (ht : p.timeline = some items) :
    (updateActiveTimelineItem p).timeline = some (items.map (fun item =>
      ({ item with active :=
          match p.activeSection with
          | none => false
          | some id => decide (item.href = some ("#" ++ id)) } : TimelineItem))) := by
  simp only [updateActiveTimelineItem, ht]

/-- C15, as the code has it: when the scroll reference position equals the top
offset of a tracked section `S` that has a positive height, and no section
visited after `S` (in the order `rd1`, `rd2`, `gk1`, `gk2`) holds the position,
`updateActiveTimelineItem` on a page with a timeline marks the items that link
to `#S` active, and no other item. -/
theorem updateActiveTimelineItem_at_top (p : ScrollPage) (id : String) (s : Section)
    (items : List TimelineItem)
    (hid : id ∈ trackedSections) (hs : p.getElementById id = some s)
    (hpos : p.scrollPosition = s.offsetTop) (hh : 0 < s.offsetHeight)
    (hlater : ∀ other ∈ sectionsAfter id, ∀ t, p.getElementById other = some t →
      p.inSection t = false)
    (ht : p.timeline = some items) :
    ∃ items', (updateActiveTimelineItem p).timeline = some items' ∧
      items'.map (fun item => item.href) = items.map (fun item => item.href) ∧
      ∀ item ∈ items', (item.active = true ↔ item.href = some ("#" ++ id)) := by
  have hact := activeSection_at_top p id s hid hs hpos hh hlater
  have hres := updateActiveTimelineItem_timeline p items ht
  rw [hact] at hres
  refine ⟨_, hres, ?_, ?_⟩
  · simp [List.map_map, Function.comp]
  · intro item hitem
    obtain ⟨b, _, rfl⟩ := List.mem_map.mp hitem
    simp

/-- C15 fails as stated: with the position 400 at the top of a section `rd1`
of height 0, no item of the built timeline is marked active; and with the
position 400 at the top of `rd1` while `rd2`, visited later, also holds the
position, the item of `rd2` is marked and that of `rd1` is not. -/
theorem updateActiveTimelineItem_top_counterexample :
    emptySectionPage.scrollPosition = 400 ∧
    emptySectionPage.getElementById "rd1" = some { offsetTop := 400, offsetHeight := 0 } ∧
    (updateActiveTimelineItem emptySectionPage).timeline
      = some (builtTimeline false false false false) ∧
    overlapPage.scrollPosition = 400 ∧
    overlapPage.getElementById "rd1" = some { offsetTop := 400, offsetHeight := 800 } ∧
    (updateActiveTimelineItem overlapPage).timeline
      = some (builtTimeline false true false false) := by
  have h1 : emptySectionPage.activeSection = none := by
    apply activeSection_none
    intro id hid s hs
    simp only [trackedSections, List.mem_cons, List.mem_singleton, List.not_mem_nil,
      or_false] at hid
    rcases hid with rfl | rfl | rfl | rfl <;>
      simp [ScrollPage.getElementById, emptySectionPage] at hs <;>
      subst hs <;>
      norm_num [ScrollPage.inSection, ScrollPage.scrollPosition, emptySectionPage]
  have h2 : overlapPage.activeSection = some "rd2" := by
    simp only [ScrollPage.activeSection, trackedSections, List.foldl]
    rw [visitSection_hit overlapPage _ "rd1" { offsetTop := 400, offsetHeight := 800 }
        (by simp [ScrollPage.getElementById, overlapPage])
        (by norm_num [ScrollPage.inSection, ScrollPage.scrollPosition, overlapPage]),
      visitSection_hit overlapPage _ "rd2" { offsetTop := 300, offsetHeight := 900 }
        (by simp [ScrollPage.getElementById, overlapPage])
        (by norm_num [ScrollPage.inSection, ScrollPage.scrollPosition, overlapPage]),
      visitSection_miss overlapPage _ "gk1"
        (by intro s hs; simp [ScrollPage.getElementById, overlapPage] at hs),
      visitSection_miss overlapPage _ "gk2"
        (by intro s hs; simp [ScrollPage.getElementById, overlapPage] at hs)]
  refine ⟨by norm_num [ScrollPage.scrollPosition, emptySectionPage],
    by simp [ScrollPage.getElementById, emptySectionPage], ?_,
    by norm_num [ScrollPage.scrollPosition, overlapPage],
    by simp [ScrollPage.getElementById, overlapPage], ?_⟩
  · rw [updateActiveTimelineItem_timeline emptySectionPage _ rfl, h1]
    rfl
  · rw [updateActiveTimelineItem_timeline overlapPage _ rfl, h2]
    decide

/-- C15 amended, at a concrete input: the position 600 at the top of `rd1`
(height 800), `rd2` starting at 1400. -/
theorem updateActiveTimelineItem_at_top_witness :
    ∃ items', (updateActiveTimelineItem topPage).timeline = some items' ∧
      items'.map (fun item => item.href)
        = (builtTimeline false false true false).map (fun item => item.href) ∧
      ∀ item ∈ items', (item.active = true ↔ item.href = some ("#" ++ "rd1")) :=
  updateActiveTimelineItem_at_top topPage "rd1" { offsetTop := 600, offsetHeight := 800 }
    (builtTimeline false false true false) (by decide)
    (by simp [ScrollPage.getElementById, topPage])
    (by norm_num [ScrollPage.scrollPosition, topPage])
    (by decide)
    (by
      intro other hother t ht
      have hother' : other = "rd2" ∨ other = "gk1" ∨ other = "gk2" := by
        simpa [sectionsAfter, trackedSections] using hother
      rcases hother' with rfl | rfl | rfl
      · simp [ScrollPage.getElementById, topPage] at ht
        subst ht
        norm_num [ScrollPage.inSection, ScrollPage.scrollPosition, topPage]
      · simp [ScrollPage.getElementById, topPage] at ht
      · simp [ScrollPage.getElementById, topPage] at ht)
    rfl

/-! ## Image modal -/

theorem findIndexFrom_shown (images : List GalleryImage) :
    ∀ (start : Int) (i : Nat) (img : GalleryImage), images[i]? = some img →
      (images.map GalleryImage.source).Nodup →
      findIndexFrom (fun x => decide (x.source = img.source)) start images = start + i := by
  induction images with
  | nil => intro start i img hi; simp at hi
  | cons a rest ih =>
    intro start i img hi hd
    cases i with
    | zero =>
      simp only [List.getElem?_cons_zero, Option.some.injEq] at hi
      subst hi
      simp [findIndexFrom]
    | succ k =>
      simp only [List.getElem?_cons_succ] at hi
      have hd' : a.source ∉ rest.map GalleryImage.source ∧
          (rest.map GalleryImage.source).Nodup := by
        simpa using hd
      have hmem : img ∈ rest := List.mem_iff_getElem?.mpr ⟨k, hi⟩
      have hne : a.source ≠ img.source := by
        intro h
        exact hd'.1 (h ▸ List.mem_map_of_mem _ hmem)
      simp only [findIndexFrom, hne, decide_False, Bool.false_eq_true, if_false]
      rw [ih (start + 1) k img hi hd'.2]
      push_cast
      ring

theorem elementAt_natCast {α : Type} (l : List α) (i : Nat) : elementAt l (i : Int) = l[i]? := by
  simp [elementAt]

theorem keydown_result (resolve : String → String) (g : Gallery) (next : GalleryImage)
    (index : Int) (hel : elementAt g.images index = some next)
    (hr : resolve next.source = next.source) :
    (match elementAt g.images index with
      | none => (Except.error JsError.typeError : Except JsError Gallery)
      | some nextImg =>
        .ok { g with modalImage := some { src := resolve nextImg.source, alt := nextImg.alt } })
      = .ok { g with modalImage := some { src := next.source, alt := next.alt } } := by
  rw [hel]
  simp [hr]

/-- Where the look-up by source finds the shown image: in a gallery whose
images have pairwise distinct sources, each the very string the modal image
reports back as its `src`, with the image at position `i` of `n` shown in the
modal, ArrowRight selects the image at position `(i + 1) mod n` and ArrowLeft
the image at position `(i - 1) mod n`, so that both keys wrap at the ends. -/
theorem modalKeydown_cycles (resolve : String → String) (g : Gallery) (m : ModalImage)
    (i : Nat) (img : GalleryImage)
    (hm : g.modalImage = some m) (hi : g.images[i]? = some img) (hshown : m.src = img.source)
    (hd : (g.images.map GalleryImage.source).Nodup)
    (hr : ∀ x ∈ g.images, resolve x.source = x.source) :
    (∃ next, g.images[(i + 1) % g.images.length]? = some next ∧
      modalKeydown resolve "ArrowRight" g
        = .ok { g with modalImage := some { src := next.source, alt := next.alt } }) ∧
    (∃ prev, g.images[(i + g.images.length - 1) % g.images.length]? = some prev ∧
      modalKeydown resolve "ArrowLeft" g
        = .ok { g with modalImage := some { src := prev.source, alt := prev.alt } }) := by
  have hlt : i < g.images.length := by
    rcases Nat.lt_or_ge i g.images.length with h | h
    · exact h
    · rw [List.getElem?_eq_none h] at hi
      cases hi
  have hidx : findIndexFrom (fun x => decide (x.source = m.src)) 0 g.images = (i : Int) := by
    rw [hshown, findIndexFrom_shown g.images 0 i img hi hd]
    simp
  constructor
  · by_cases hlast : i + 1 < g.images.length
    · have hmod : (i + 1) % g.images.length = i + 1 := Nat.mod_eq_of_lt hlast
      obtain ⟨next, hnext⟩ : ∃ next, g.images[i + 1]? = some next :=
        ⟨g.images[i + 1], List.getElem?_eq_getElem hlast⟩
      have hcond : (i : Int) < (g.images.length : Int) - 1 := by omega
      refine ⟨next, by rw [hmod]; exact hnext, ?_⟩
      have hel : elementAt g.images ((i : Int) + 1) = some next := by
        have := elementAt_natCast g.images (i + 1)
        rw [hnext] at this
        simpa using this
      simp only [modalKeydown, hm, hidx, hcond, if_true]
      exact keydown_result resolve g next _ hel (hr next (List.mem_iff_getElem?.mpr ⟨_, hnext⟩))
    · have hn : i + 1 = g.images.length := by omega
      have hmod : (i + 1) % g.images.length = 0 := by rw [hn]; exact Nat.mod_self _
      obtain ⟨next, hnext⟩ : ∃ next, g.images[0]? = some next :=
        ⟨g.images[0], List.getElem?_eq_getElem (by omega)⟩
      have hcond : ¬ ((i : Int) < (g.images.length : Int) - 1) := by omega
      refine ⟨next, by rw [hmod]; exact hnext, ?_⟩
      have hel : elementAt g.images 0 = some next := by
        have := elementAt_natCast g.images 0
        rw [hnext] at this
        simpa using this
      simp only [modalKeydown, hm, hidx, hcond, if_false]
      exact keydown_result resolve g next _ hel (hr next (List.mem_iff_getElem?.mpr ⟨_, hnext⟩))
  · by_cases hfirst : 0 < i
    · have hmod : (i + g.images.length - 1) % g.images.length = i - 1 := by
        have : i + g.images.length - 1 = (i - 1) + g.images.length := by omega
        rw [this, Nat.add_mod_right]
        exact Nat.mod_eq_of_lt (by omega)
      obtain ⟨prev, hprev⟩ : ∃ prev, g.images[i - 1]? = some prev :=
        ⟨g.images[i - 1], List.getElem?_eq_getElem (by omega)⟩
      have hcond : (i : Int) > 0 := by omega
      refine ⟨prev, by rw [hmod]; exact hprev, ?_⟩
      have hel : elementAt g.images ((i : Int) - 1) = some prev := by
        have := elementAt_natCast g.images (i - 1)
        rw [hprev] at this
        have hcast : ((i - 1 : Nat) : Int) = (i : Int) - 1 := by omega
        rw [hcast] at this
        exact this
      simp only [modalKeydown, hm, hidx, hcond, if_true]
      exact keydown_result resolve g prev _ hel (hr prev (List.mem_iff_getElem?.mpr ⟨_, hprev⟩))
    · have hzero : i = 0 := by omega
      have hmod : (i + g.images.length - 1) % g.images.length = g.images.length - 1 := by
        rw [hzero, Nat.zero_add]
        exact Nat.mod_eq_of_lt (by omega)
      obtain ⟨prev, hprev⟩ : ∃ prev, g.images[g.images.length - 1]? = some prev :=
        ⟨g.images[g.images.length - 1], List.getElem?_eq_getElem (by omega)⟩
      have hcond : ¬ ((i : Int) > 0) := by omega
      refine ⟨prev, by rw [hmod]; exact hprev, ?_⟩
      have hel : elementAt g.images ((g.images.length : Int) - 1) = some prev := by
        have := elementAt_natCast g.images (g.images.length - 1)
        rw [hprev] at this
        have hcast : ((g.images.length - 1 : Nat) : Int) = (g.images.length : Int) - 1 := by
          omega
        rw [hcast] at this
        exact this
      simp only [modalKeydown, hm, hidx, hcond, if_false]
      exact keydown_result resolve g prev _ hel (hr prev (List.mem_iff_getElem?.mpr ⟨_, hprev⟩))

/-- C14 at a gallery whose `data-src` attributes are relative URLs. A click
on the second image (position 1 of 3) stores its `data-src` in the modal image,
which reports the absolute URL back; the key listener compares that URL with
the `data-src` attributes as written, finds no image, and from index -1
ArrowRight selects the first image, not the third, and ArrowLeft the last, not
the first. -/
theorem modalKeydown_relative_source :
    galleryClick siteUrl { dataSrc := some "img/rd2.jpg", src := "https://coupe.example/thumb/rd2.jpg",
                           alt := "RD2" } { relativeGallery with modalImage := some { src := "", alt := "" } }
      = .ok relativeGallery ∧
    relativeGallery.images[1]?.map GalleryImage.source = some "img/rd2.jpg" ∧
    relativeGallery.modalImage.map (fun m => m.src) = some "https://coupe.example/img/rd2.jpg" ∧
    findIndexFrom (fun img => decide (img.source = "https://coupe.example/img/rd2.jpg")) 0
      relativeGallery.images = -1 ∧
    modalKeydown siteUrl "ArrowRight" relativeGallery
      = .ok { relativeGallery with
              modalImage := some { src := "https://coupe.example/img/rd1.jpg", alt := "RD1" } } ∧
    modalKeydown siteUrl "ArrowLeft" relativeGallery
      = .ok { relativeGallery with
              modalImage := some { src := "https://coupe.example/img/gk1.jpg", alt := "GK1" } } := by
  decide

/-- Two images of one source: in a gallery whose first and third image have
the same source, with the third image (position 2 of 3) shown, ArrowRight
selects the second image and ArrowLeft the third again, since the listener
looks the shown image up by its source and finds the first image. -/
theorem modalKeydown_same_source :
    twinGallery.images[2]?.map GalleryImage.source = twinGallery.modalImage.map (fun m => m.src) ∧
    modalKeydown (fun url => url) "ArrowRight" twinGallery
      = .ok { twinGallery with
              modalImage := some { src := "https://coupe.example/img/rd2.jpg", alt := "RD2" } } ∧
    modalKeydown (fun url => url) "ArrowLeft" twinGallery
      = .ok { twinGallery with
              modalImage := some { src := "https://coupe.example/img/rd1.jpg", alt := "RD1 rear" } } := by
  decide

/-- The keys at a concrete gallery: three images with distinct absolute
sources, the last one shown. -/
theorem modalKeydown_cycles_witness :
    (∃ next, distinctGallery.images[(2 + 1) % distinctGallery.images.length]? = some next ∧
      modalKeydown (fun url => url) "ArrowRight" distinctGallery
        = .ok { distinctGallery with
                modalImage := some { src := next.source, alt := next.alt } }) ∧
    (∃ prev, distinctGallery.images[(2 + distinctGallery.images.length - 1)
          % distinctGallery.images.length]? = some prev ∧
      modalKeydown (fun url => url) "ArrowLeft" distinctGallery
        = .ok { distinctGallery with
                modalImage := some { src := prev.source, alt := prev.alt } }) :=
  modalKeydown_cycles (fun url => url) distinctGallery
    { src := "https://coupe.example/img/gk1.jpg", alt := "GK1" } 2
    { dataSrc := some "https://coupe.example/img/gk1.jpg",
      src := "https://coupe.example/thumb/gk1.jpg", alt := "GK1" }
    rfl rfl rfl (by decide) (fun _ _ => rfl)

/-! ## Search: the query `2.0` on items of plain text -/

theorem compile_litre : RegExp.compile ("(" ++ "2.0" ++ ")") = .ok litrePattern := by decide

theorem litrePattern_head (atStart : Bool) (text : List Char) :
    (litrePattern.matchesFrom { atStart := atStart, rest := text, capture := none }).head?
      = if beginsWithHit text then
          some { atStart := false, rest := text.drop 3, capture := some (text.take 3) }
        else none := by
  have e2 : ('2' : Char).toLower = '2' := by decide
  have e0 : ('0' : Char).toLower = '0' := by decide
  rcases text with _ | ⟨c1, _ | ⟨c2, _ | ⟨c3, rest⟩⟩⟩
  · simp [litrePattern, Re.matchesFrom, beginsWithHit]
  · by_cases h1 : '2' = c1.toLower
    · simp [litrePattern, Re.matchesFrom, beginsWithHit, eq_true h1, e2]
    · simp [litrePattern, Re.matchesFrom, beginsWithHit, eq_false h1, e2]
  · by_cases h1 : '2' = c1.toLower
    · by_cases h2 : isLineTerminator c2 = true
      · simp [litrePattern, Re.matchesFrom, beginsWithHit, eq_true h1, h2, e2]
      · simp [litrePattern, Re.matchesFrom, beginsWithHit, eq_true h1, h2, e2]
    · simp [litrePattern, Re.matchesFrom, beginsWithHit, eq_false h1, e2]
  · have hlen : rest.length + 1 + 1 + 1 - rest.length = 3 := by omega
    by_cases h1 : '2' = c1.toLower
    · by_cases h2 : isLineTerminator c2 = true
      · simp [litrePattern, Re.matchesFrom, beginsWithHit, eq_true h1, h2, e2]
      · by_cases h3 : '0' = c3.toLower
        · simp [litrePattern, Re.matchesFrom, beginsWithHit, eq_true h1, h2, eq_true h3, e2, e0, hlen]
        · simp [litrePattern, Re.matchesFrom, beginsWithHit, eq_true h1, h2, eq_false h3, e2, e0]
    · simp [litrePattern, Re.matchesFrom, beginsWithHit, eq_false h1, e2]

theorem replaceFrom_litre_nil (atStart : Bool) (skip : Nat) :
    replaceFrom litrePattern atStart skip [] = [] := by
  rw [replaceFrom, litrePattern_head]
  rfl

theorem replaceFrom_litre_miss (atStart : Bool) (c : Char) (rest : List Char)
    (h : beginsWithHit (c :: rest) = false) :
    replaceFrom litrePattern atStart 0 (c :: rest) = c :: replaceFrom litrePattern false 0 rest := by
  rw [replaceFrom, litrePattern_head, h]
  rfl

theorem beginsWithHit_length (text : List Char) (h : beginsWithHit text = true) :
    ∃ c1 c2 c3 rest, text = c1 :: c2 :: c3 :: rest := by
  rcases text with _ | ⟨c1, _ | ⟨c2, _ | ⟨c3, rest⟩⟩⟩
  · simp [beginsWithHit] at h
  · simp [beginsWithHit] at h
  · simp [beginsWithHit] at h
  · exact ⟨c1, c2, c3, rest, rfl⟩

theorem replaceFrom_litre_hit (atStart : Bool) (c1 c2 c3 : Char) (rest : List Char)
    (h : beginsWithHit (c1 :: c2 :: c3 :: rest) = true) :
    replaceFrom litrePattern atStart 0 (c1 :: c2 :: c3 :: rest)
      = highlightMarkup (some [c1, c2, c3]) ++ replaceFrom litrePattern false 2 (c2 :: c3 :: rest) := by
  have hlen : rest.length + 1 + 1 + 1 - rest.length = 2 + 1 := by omega
  conv_lhs => rw [replaceFrom, litrePattern_head, h]
  simp only [if_true, List.drop_succ_cons, List.drop_zero, List.length_cons, hlen,
    List.take_succ_cons, List.take_zero]

theorem span_plain (run rest : List Char) (hrun : ∀ d ∈ run, (d != '<') = true)
    (hrest : rest = [] ∨ ∃ r, rest = '<' :: r) :
    (run ++ rest).span (fun d => d != '<') = (run, rest) := by
  have key : ∀ (acc : List Char) (run : List Char), (∀ d ∈ run, (d != '<') = true) →
      List.span.loop (fun d => d != '<') (run ++ rest) acc = (acc.reverse ++ run, rest) := by
    intro acc run
    induction run generalizing acc with
    | nil =>
      intro _
      rcases hrest with rfl | ⟨r, rfl⟩
      · simp [List.span.loop]
      · simp [List.span.loop]
    | cons c run ih =>
      intro h
      have hc := h c (List.mem_cons_self _ _)
      have := ih (c :: acc) (fun d hd => h d (List.mem_cons_of_mem _ hd))
      simp only [List.cons_append, List.span.loop, hc]
      simpa using this
  simpa [List.span] using key [] run hrun

theorem plain_ne_lt (c : Char) (h : isPlainChar c = true) : (c != '<') = true := by
  simp only [isPlainChar, Bool.and_eq_true] at h
  exact h.1.1.1.1.2

theorem decodeReferences_plain (run : List Char) (hrun : ∀ d ∈ run, isPlainChar d = true) :
    decodeReferences 0 run = some run := by
  induction run with
  | nil => rfl
  | cons c run ih =>
    have hc := hrun c (List.mem_cons_self _ _)
    simp only [isPlainChar, Bool.and_eq_true, bne_iff_ne, ne_eq] at hc
    obtain ⟨⟨⟨⟨⟨h1, h2⟩, h3⟩, h4⟩, h5⟩, h6⟩ := hc
    simp [decodeReferences, h1, h5, h6, ih (fun d hd => hrun d (List.mem_cons_of_mem _ hd))]

theorem parseNodes_text (fuel : Nat) (parent : Option String) (c : Char) (run rest : List Char)
    (hc : isPlainChar c = true) (hrun : ∀ d ∈ run, isPlainChar d = true)
    (hrest : rest = [] ∨ ∃ r, rest = '<' :: r) :
    parseNodes (fuel + 1) parent (c :: run ++ rest)
      = match parseNodes fuel parent rest with
        | some (next, rest') => some (.text (String.mk (c :: run)) next, rest')
        | none => none := by
  have hspan : (c :: (run ++ rest)).span (fun d => d != '<') = (c :: run, rest) := by
    have := span_plain (c :: run) rest (fun d hd => by
      rcases List.mem_cons.mp hd with rfl | hd
      · exact plain_ne_lt _ hc
      · exact plain_ne_lt _ (hrun d hd)) hrest
    simpa using this
  have hdec : decodeReferences 0 (c :: run) = some (c :: run) :=
    decodeReferences_plain (c :: run) (fun d hd => by
      rcases List.mem_cons.mp hd with rfl | hd
      · exact hc
      · exact hrun d hd)
  have hne : c ≠ '<' := by simpa using plain_ne_lt c hc
  rw [List.cons_append, parseNodes]
  · simp only [hspan, hdec]
    cases parseNodes fuel parent rest with
    | none => rfl
    | some r => rfl
  · intro _ h _
    exact hne h
  · exact hne

theorem parseNodes_markEnd (fuel : Nat) (rest : List Char) :
    parseNodes (fuel + 1) (some "mark") ("</mark>".toList ++ rest) = some (.nil, rest) := by
  show parseNodes (fuel + 1) (some "mark") ('<' :: '/' :: 'm' :: 'a' :: 'r' :: 'k' :: '>' :: rest) = _
  rw [parseNodes]
  have hspan : ('m' :: 'a' :: 'r' :: 'k' :: '>' :: rest).span isNameChar
      = (['m', 'a', 'r', 'k'], '>' :: rest) := rfl
  simp only [hspan]
  rfl

theorem parseAttributes_highlight (rest : List Char) :
    parseAttributes ((" class=\"search-highlight\">".toList ++ rest).length + 1)
      (" class=\"search-highlight\">".toList ++ rest)
      = some ([("class", "search-highlight")], rest) := by
  rfl

theorem parseNodes_mark (fuel : Nat) (parent : Option String) (c1 c2 c3 : Char)
    (rest : List Char) (h1 : isPlainChar c1 = true) (h2 : isPlainChar c2 = true)
    (h3 : isPlainChar c3 = true) :
    parseNodes (fuel + 3) parent (highlightMarkup (some [c1, c2, c3]) ++ rest)
      = match parseNodes (fuel + 2) parent rest with
        | some (next, rest') =>
          some (.elem "mark" [("class", "search-highlight")]
                  (.text (String.mk [c1, c2, c3]) .nil) next, rest')
        | none => none := by
  have hinner : parseNodes (fuel + 2) (some "mark") (c1 :: [c2, c3] ++ ("</mark>".toList ++ rest))
      = some (.text (String.mk [c1, c2, c3]) .nil, rest) := by
    rw [parseNodes_text (fuel + 1) (some "mark") c1 [c2, c3] ("</mark>".toList ++ rest) h1
      (by
        intro d hd
        simp only [List.mem_cons, List.mem_singleton, List.not_mem_nil, or_false] at hd
        rcases hd with rfl | rfl
        · exact h2
        · exact h3)
      (Or.inr ⟨_, rfl⟩), parseNodes_markEnd]
  show parseNodes (fuel + 3) parent
    ('<' :: 'm' :: 'a' :: 'r' :: 'k' ::
      (" class=\"search-highlight\">".toList ++ (c1 :: [c2, c3] ++ ("</mark>".toList ++ rest)))) = _
  rw [parseNodes]
  · have hspan : ('m' :: 'a' :: 'r' :: 'k' ::
        (" class=\"search-highlight\">".toList ++ (c1 :: [c2, c3] ++ ("</mark>".toList ++ rest)))).span
          isNameChar
        = (['m', 'a', 'r', 'k'],
            " class=\"search-highlight\">".toList ++ (c1 :: [c2, c3] ++ ("</mark>".toList ++ rest))) :=
      rfl
    simp only [hspan, parseAttributes_highlight]
    have hname : toLowerCase (String.mk ['m', 'a', 'r', 'k']) = "mark" := by decide
    simp only [hname, hinner]
    rw [if_neg (by decide), if_pos (by decide)]
  · intro _ h
    cases h

theorem parseNodes_litre (text : List Char) (htext : ∀ c ∈ text, isPlainChar c = true) :
    ∀ (pending : List Char) (atStart : Bool) (skip fuel : Nat),
      (∀ c ∈ pending, isPlainChar c = true) →
      (pending ++ replaceFrom litrePattern atStart skip text).length + 1 ≤ fuel →
      parseNodes fuel none (pending ++ replaceFrom litrePattern atStart skip text)
        = some (litreNodes pending skip text, []) := by
  induction text with
  | nil =>
    intro pending atStart skip fuel hp hfuel
    have hnodes : litreNodes pending skip [] = textNode pending .nil := by
      cases skip <;> rfl
    rw [replaceFrom_litre_nil] at hfuel ⊢
    rw [hnodes]
    cases pending with
    | nil =>
      obtain ⟨k, rfl⟩ : ∃ k, fuel = k + 1 := ⟨fuel - 1, by simp at hfuel; omega⟩
      rfl
    | cons p ps =>
      obtain ⟨k, rfl⟩ : ∃ k, fuel = k + 2 := ⟨fuel - 2, by simp at hfuel; omega⟩
      rw [parseNodes_text (k + 1) none p ps [] (hp p (List.mem_cons_self _ _))
        (fun d hd => hp d (List.mem_cons_of_mem _ hd)) (Or.inl rfl)]
      rfl
  | cons c rest ih =>
    intro pending atStart skip fuel hp hfuel
    have hrest : ∀ d ∈ rest, isPlainChar d = true := fun d hd => htext d (List.mem_cons_of_mem _ hd)
    cases skip with
    | succ k =>
      have hr : replaceFrom litrePattern atStart (k + 1) (c :: rest)
          = replaceFrom litrePattern false k rest := by rw [replaceFrom]
      have hn : litreNodes pending (k + 1) (c :: rest) = litreNodes pending k rest := by
        rw [litreNodes]
      rw [hr] at hfuel ⊢
      rw [hn]
      exact ih hrest pending false k fuel hp hfuel
    | zero =>
      cases hit : beginsWithHit (c :: rest) with
      | false =>
        have hn : litreNodes pending 0 (c :: rest) = litreNodes (pending ++ [c]) 0 rest := by
          rw [litreNodes, hit]
          rfl
        rw [replaceFrom_litre_miss atStart c rest hit] at hfuel ⊢
        rw [hn]
        have happ : pending ++ c :: replaceFrom litrePattern false 0 rest
            = (pending ++ [c]) ++ replaceFrom litrePattern false 0 rest := by simp
        rw [happ] at hfuel ⊢
        refine ih hrest (pending ++ [c]) false 0 fuel ?_ hfuel
        intro d hd
        rcases List.mem_append.mp hd with hd | hd
        · exact hp d hd
        · rw [List.mem_singleton.mp hd]
          exact htext c (List.mem_cons_self _ _)
      | true =>
        obtain ⟨c1, c2, c3, tail, htxt⟩ := beginsWithHit_length _ hit
        cases htxt
        have h1 : isPlainChar c = true := htext c (List.mem_cons_self _ _)
        have h2 : isPlainChar c2 = true := htext c2 (by simp)
        have h3 : isPlainChar c3 = true := htext c3 (by simp)
        have hn : litreNodes pending 0 (c :: c2 :: c3 :: tail)
            = textNode pending (.elem "mark" [("class", "search-highlight")]
                (.text (String.mk [c, c2, c3]) .nil) (litreNodes [] 2 (c2 :: c3 :: tail))) := by
          conv_lhs => rw [litreNodes, hit]
          rfl
        rw [replaceFrom_litre_hit atStart c c2 c3 tail hit] at hfuel ⊢
        rw [hn]
        have hlen : (highlightMarkup (some [c, c2, c3])).length = 41 := rfl
        cases pending with
        | nil =>
          obtain ⟨k, rfl⟩ : ∃ k, fuel = k + 3 :=
            ⟨fuel - 3, by simp only [List.nil_append, List.length_append, hlen] at hfuel; omega⟩
          have hnext := ih hrest [] false 2 (k + 2) (fun _ hd => by cases hd)
            (by simp only [List.nil_append, List.length_append, hlen] at hfuel ⊢; omega)
          rw [List.nil_append] at hnext ⊢
          rw [parseNodes_mark k none c c2 c3 _ h1 h2 h3, hnext]
          rfl
        | cons p ps =>
          obtain ⟨k, rfl⟩ : ∃ k, fuel = k + 4 :=
            ⟨fuel - 4, by
              simp only [List.length_cons, List.cons_append, List.length_append, hlen] at hfuel
              omega⟩
          have hnext := ih hrest [] false 2 (k + 2) (fun _ hd => by cases hd)
            (by
              simp only [List.length_cons, List.cons_append, List.nil_append, List.length_append,
                hlen] at hfuel ⊢
              omega)
          rw [List.nil_append] at hnext
          rw [parseNodes_text (k + 3) none p ps
            (highlightMarkup (some [c, c2, c3]) ++ replaceFrom litrePattern false 2 (c2 :: c3 :: tail))
            (hp p (List.mem_cons_self _ _))
            (fun d hd => hp d (List.mem_cons_of_mem _ hd)) (Or.inr ⟨_, rfl⟩),
            parseNodes_mark k none c c2 c3 _ h1 h2 h3, hnext]
          rfl

theorem escapeText_plain (text : List Char) (h : ∀ c ∈ text, isPlainChar c = true) :
    escapeText text = text := by
  induction text with
  | nil => rfl
  | cons c rest ih =>
    have hc := h c (List.mem_cons_self _ _)
    simp only [isPlainChar, Bool.and_eq_true, bne_iff_ne, ne_eq] at hc
    obtain ⟨⟨⟨⟨⟨h1, h2⟩, h3⟩, h4⟩, _⟩, _⟩ := hc
    simp [escapeText, h1, h2, h3, h4, ih (fun d hd => h d (List.mem_cons_of_mem _ hd))]

theorem highlightSearchTerm_plain (marked : Bool) (text : List Char)
    (h : ∀ c ∈ text, isPlainChar c = true) :
    highlightSearchTerm { searchResult := marked, children := .text (String.mk text) .nil } "2.0"
      = .ok { searchResult := true, children := litreNodes [] 0 text } := by
  have hinner : (Dom.text (String.mk text) .nil).innerHTML = String.mk text := by
    simp [Dom.innerHTML, Dom.serialize, escapeText_plain text h]
  have hparse := parseNodes_litre text h [] true 0
    ((replaceFrom litrePattern true 0 text).length + 1) (fun _ hd => by cases hd) (le_refl _)
  rw [List.nil_append] at hparse
  have hlist : ∀ l : List Char, (String.mk l).toList = l := fun _ => rfl
  simp only [highlightSearchTerm, compile_litre, hinner, replaceAll, parseHTML, String.length,
    hlist, hparse, Option.map]

theorem clear_plain (marked : Bool) (text : String) :
    SpecItem.clear { searchResult := marked, children := .text text .nil }
      = { searchResult := false, children := .text text .nil } := by
  rfl

theorem occursIn_litre (before after : List Char) :
    occursIn "2.0".toList ((before ++ "2.0L".toList ++ after).map Char.toLower) = true := by
  induction before with
  | nil => simp [occursIn, List.isPrefixOf]
  | cons c rest ih =>
    simp only [List.cons_append, List.map_cons, occursIn, Bool.or_eq_true]
    exact Or.inr (by simpa using ih)

theorem highlightedTexts_textNode (pending : List Char) (next : Dom) :
    (textNode pending next).highlightedTexts = next.highlightedTexts := by
  cases pending with
  | nil => rfl
  | cons c rest => rfl

theorem litreNodes_highlights (before after : List Char) :
    ∀ (pending : List Char) (skip : Nat), skip ≤ before.length →
      "2.0" ∈ (litreNodes pending skip (before ++ "2.0L".toList ++ after)).highlightedTexts := by
  induction before with
  | nil =>
    intro pending skip hskip
    have hzero : skip = 0 := by simpa using hskip
    subst hzero
    have hhit : beginsWithHit ('2' :: '.' :: '0' :: 'L' :: after) = true := by
      simp [beginsWithHit, isLineTerminator]
    show "2.0" ∈ (litreNodes pending 0 ('2' :: ('.' :: '0' :: 'L' :: after))).highlightedTexts
    rw [litreNodes, hhit, if_pos rfl, highlightedTexts_textNode, Dom.highlightedTexts,
      if_pos (by decide)]
    have htext : (Dom.text (String.mk (('2' :: '.' :: '0' :: 'L' :: after).take 3)) .nil).textContent
        = "2.0" := rfl
    rw [htext]
    exact List.mem_append_left _ (List.mem_append_left _ (List.mem_singleton.mpr rfl))
  | cons c rest ih =>
    intro pending skip hskip
    cases skip with
    | succ k =>
      show "2.0" ∈ (litreNodes pending (k + 1) (c :: (rest ++ "2.0L".toList ++ after))).highlightedTexts
      rw [litreNodes]
      exact ih pending k (by simpa using hskip)
    | zero =>
      show "2.0" ∈ (litreNodes pending 0 (c :: (rest ++ "2.0L".toList ++ after))).highlightedTexts
      rw [litreNodes]
      cases hit : beginsWithHit (c :: (rest ++ "2.0L".toList ++ after)) with
      | false =>
        rw [if_neg (by simp)]
        exact ih (pending ++ [c]) 0 (Nat.zero_le _)
      | true =>
        have hlen : 2 ≤ rest.length := by
          rcases rest with _ | ⟨d, _ | ⟨e, rest⟩⟩
          · simp [beginsWithHit] at hit
          · simp [beginsWithHit] at hit
          · simp
        rw [if_pos rfl, highlightedTexts_textNode, Dom.highlightedTexts]
        exact List.mem_append_right _ (ih [] 2 hlen)

theorem searchItems_litre (items : List SpecItem)
    (hplain : ∀ item ∈ items, item.searchResult = false ∧
      ∃ text : List Char, (∀ c ∈ text, isPlainChar c = true) ∧
        item.children = .text (String.mk text) .nil) :
    ∃ items', searchItems "2.0" items
        = .ok (items', (items'.filter (fun item => item.searchResult)).length) ∧
      ∀ (i : Nat) (text : List Char),
        (items[i]?).map (fun item => item.children) = some (.text (String.mk text) .nil) →
        includes (toLowerCase (String.mk text)) "2.0" = true →
        items'[i]? = some { searchResult := true, children := litreNodes [] 0 text } := by
  induction items with
  | nil =>
    refine ⟨[], rfl, ?_⟩
    intro i text h
    simp at h
  | cons item rest ih =>
    obtain ⟨rest', hrest, hat⟩ := ih (fun x hx => hplain x (List.mem_cons_of_mem _ hx))
    obtain ⟨hmark, text, htext, hchildren⟩ := hplain item (List.mem_cons_self _ _)
    obtain ⟨marked, children⟩ := item
    simp only at hmark hchildren
    subst hmark hchildren
    have hcontent : (Dom.text (String.mk text) .nil).textContent = String.mk text := by
      simp [Dom.textContent]
    cases hinc : includes (toLowerCase (String.mk text)) "2.0" with
    | true =>
      refine ⟨{ searchResult := true, children := litreNodes [] 0 text } :: rest', ?_, ?_⟩
      · simp only [searchItems, hcontent, hinc, if_true, highlightSearchTerm_plain false text htext,
          hrest, List.filter_cons_of_pos, List.length_cons]
      · intro i text' h hinc'
        cases i with
        | zero =>
          simp only [List.getElem?_cons_zero, Option.map_some', Option.some.injEq, Dom.text.injEq,
            and_true] at h
          have h' : text = text' := congrArg String.data h
          subst h'
          simp
        | succ j =>
          simp only [List.getElem?_cons_succ] at h ⊢
          exact hat j text' h hinc'
    | false =>
      refine ⟨{ searchResult := false, children := .text (String.mk text) .nil } :: rest', ?_, ?_⟩
      · simp [searchItems, hcontent, hinc, hrest]
      · intro i text' h hinc'
        cases i with
        | zero =>
          simp only [List.getElem?_cons_zero, Option.map_some', Option.some.injEq, Dom.text.injEq,
            and_true] at h
          have h' : text = text' := congrArg String.data h
          subst h'
          rw [hinc] at hinc'
          cases hinc'
        | succ j =>
          simp only [List.getElem?_cons_succ] at h ⊢
          exact hat j text' h hinc'

/-- Where the text of the items holds no markup: on a page whose items each
consist of one text node of plain characters, with an item whose text contains
the literal `2.0L`, the search for `2.0` completes, marks that item as a
result, wraps its `2.0` in a highlight marker, and reports the number of marked
items, the item among them. -/
theorem performSearch_litre (s : SearchPage) (i : Nat) (before after : List Char)
    (hplain : ∀ item ∈ s.items, ∃ text : List Char, (∀ c ∈ text, isPlainChar c = true) ∧
      item.children = .text (String.mk text) .nil)
    (hitem : (s.items[i]?).map (fun item => item.children)
      = some (.text (String.mk (before ++ "2.0L".toList ++ after)) .nil)) :
    ∃ s' item', performSearch "2.0" s = .ok s' ∧
      s'.items[i]? = some item' ∧ item'.searchResult = true ∧
      "2.0" ∈ item'.children.highlightedTexts ∧
      item' ∈ s'.items.filter (fun item => item.searchResult) ∧
      s'.console = s.console ++
        ["Found " ++ toString (s'.items.filter (fun item => item.searchResult)).length
          ++ " results for \"" ++ "2.0" ++ "\""] := by
  have hcleared : ∀ item ∈ (clearSearchHighlights s).items, item.searchResult = false ∧
      ∃ text : List Char, (∀ c ∈ text, isPlainChar c = true) ∧
        item.children = .text (String.mk text) .nil := by
    intro item hmem
    simp only [clearSearchHighlights, List.mem_map] at hmem
    obtain ⟨item0, hmem0, rfl⟩ := hmem
    obtain ⟨text, htext, hchildren⟩ := hplain item0 hmem0
    obtain ⟨marked, children⟩ := item0
    simp only at hchildren
    subst hchildren
    rw [clear_plain]
    exact ⟨rfl, text, htext, rfl⟩
  have hclearedItem : ((clearSearchHighlights s).items[i]?).map (fun item => item.children)
      = some (.text (String.mk (before ++ "2.0L".toList ++ after)) .nil) := by
    simp only [clearSearchHighlights, List.getElem?_map]
    cases hsi : s.items[i]? with
    | none => rw [hsi] at hitem; simp at hitem
    | some item0 =>
      rw [hsi] at hitem
      obtain ⟨marked, children⟩ := item0
      simp only [Option.map_some', Option.some.injEq] at hitem
      subst hitem
      rfl
  obtain ⟨items', hsearch, hat⟩ := searchItems_litre _ hcleared
  have hinc : includes (toLowerCase (String.mk (before ++ "2.0L".toList ++ after))) "2.0" = true :=
    occursIn_litre before after
  have hi := hat i _ hclearedItem hinc
  have hquery : toLowerCase "2.0" = "2.0" := by decide
  have htrim : trim "2.0" ≠ "" := by decide
  refine ⟨{ items := items'
            console := s.console ++
              ["Found " ++ toString (items'.filter (fun item => item.searchResult)).length
                ++ " results for \"" ++ "2.0" ++ "\""] },
    { searchResult := true
      children := litreNodes [] 0 (before ++ "2.0L".toList ++ after) }, ?_, hi, rfl,
    litreNodes_highlights before after [] 0 (Nat.zero_le _), ?_, rfl⟩
  · simp only [performSearch, if_neg htrim, hquery, hsearch]
    rfl
  · exact List.mem_filter.mpr ⟨List.mem_iff_getElem?.mpr ⟨_, hi⟩, rfl⟩

/-- The search for `2.0` at a concrete page of plain items: `2.0L 250` and
`1.6L`, the first of which holds `2.0L` at its start. -/
theorem performSearch_litre_witness :
    (∀ item ∈ engineItems.items, ∃ text : List Char, (∀ c ∈ text, isPlainChar c = true) ∧
      item.children = .text (String.mk text) .nil) ∧
    (engineItems.items[0]?).map (fun item => item.children)
      = some (.text (String.mk ([] ++ "2.0L".toList ++ " 250".toList)) .nil) ∧
    ∃ s' item', performSearch "2.0" engineItems = .ok s' ∧
      s'.items[0]? = some item' ∧ item'.searchResult = true ∧
      "2.0" ∈ item'.children.highlightedTexts ∧
      item' ∈ s'.items.filter (fun item => item.searchResult) ∧
      s'.console = engineItems.console ++
        ["Found " ++ toString (s'.items.filter (fun item => item.searchResult)).length
          ++ " results for \"" ++ "2.0" ++ "\""] :=
  have hplain : ∀ item ∈ engineItems.items, ∃ text : List Char,
      (∀ c ∈ text, isPlainChar c = true) ∧ item.children = .text (String.mk text) .nil := by
    intro item hmem
    simp only [engineItems, List.mem_cons, List.mem_singleton, List.not_mem_nil, or_false] at hmem
    rcases hmem with rfl | rfl
    · exact ⟨"2.0L 250".toList, by decide, rfl⟩
    · exact ⟨"1.6L".toList, by decide, rfl⟩
  ⟨hplain, rfl, performSearch_litre engineItems 0 [] " 250".toList hplain rfl⟩

end HyundaiCoupeWebsite
